import Mathlib

/-!
Shallow embedding of `stellargraph/mapper/sequences.py` (Keras data
Sequence adapters for graph ML): per-entity batchers (`NodeSequence`,
`LinkSequence`), the on-demand link planner (`OnDemandLinkSequence`),
full-batch packers (`FullBatchSequence`, `SparseFullBatchSequence`,
`RelationalFullBatchNodeSequence`), the graph batcher (`GraphSequence`)
and the corruption wrapper (`CorruptedNodeSequence`).

Conventions of the embedding:
* Python exceptions become `Except Err`; `Err` distinguishes the Python
  exception classes raised by the source (`TypeError`, `ValueError`,
  `IndexError`, `AttributeError`).
* numpy arrays become `List`-based matrices over `Int`; scipy sparse
  matrices become coordinate lists (`Coo`).  The leading batch dimension
  of size 1 that `_full_batch_array_and_reshape` prepends is bookkeeping
  and is represented implicitly (the payload without the extra axis),
  except where a claim observes it.
* The injected `sample_function` is a black box; methods that call it
  take it as an explicit function argument instead of storing it, which
  is observationally equivalent because the source only ever calls it.
* Mutating methods are embedded as `state → Except Err (result × state)`;
  a method body with no attribute assignment returns its input state.
* External collaborators that are not part of this file's source
  (`random_state` from `stellargraph.random`, `random.shuffle` from the
  Python standard library, the `UnsupervisedSampler` walker, and
  `normalize_adj`) are modelled per the spec: the seeded generator as a
  deterministic state machine, process-wide randomness and walker output
  as oracle arguments, `normalize_adj` as a function parameter.
-/

namespace StellarSeq

/-- Python exception classes raised by the source code. -/
inductive Err : Type where
  | typeError : Err
  | valueError : Err
  | indexError : Err
  | attributeError : Err
deriving DecidableEq

deriving instance DecidableEq for Except

/-- `[l[i] for i in idxs]` / numpy fancy indexing: any out-of-range index
raises `IndexError`, otherwise the selected elements are returned. -/
def lookupAll {γ : Type} : List γ → List Nat → Except Err (List γ)
  | _, [] => .ok []
  | l, i :: is =>
    match l.get? i with
    | some x => (lookupAll l is).map (fun r => x :: r)
    | none => .error .indexError

/-- Extract the payload of an `Except`, with a default for the error case. -/
def okD {γ : Type} (e : Except Err γ) (d : γ) : γ :=
  match e with
  | .ok x => x
  | .error _ => d

/-! ### Sparse matrices in coordinate (COO) form

Models `scipy.sparse` matrices as used by the source: a shape plus a list
of `(row, col, value)` entries.  `toarray` sums duplicate entries, as
scipy does when densifying. -/

/-- A scipy sparse matrix in coordinate form: shape plus `(row, col, value)`
entries.  Duplicate coordinates are legal and are summed by `toarray`. -/
structure Coo : Type where
  nrows : Nat
  ncols : Nat
  entries : List (Nat × Nat × Int)
deriving DecidableEq

/-- The dense value at `(i, j)`: the sum of all entries with that
coordinate (scipy sums duplicates when densifying). -/
def Coo.entryAt (m : Coo) (i j : Nat) : Int :=
  ((m.entries.filter (fun e => e.1 == i && e.2.1 == j)).map (fun e => e.2.2)).sum

/-- `A.toarray()`: densify a sparse matrix, summing duplicate entries. -/
def Coo.toarray (m : Coo) : List (List Int) :=
  (List.range m.nrows).map (fun i => (List.range m.ncols).map (fun j => m.entryAt i j))

/-- `A.resize((r, c))` of a scipy sparse matrix: in-place shape change,
dropping entries that fall outside the new shape.  The Python method
mutates the matrix; the embedding returns the new matrix and the caller
threads it into the state. -/
def Coo.resize (m : Coo) (r c : Nat) : Coo :=
  { nrows := r, ncols := c, entries := m.entries.filter (fun e => e.1 < r && e.2.1 < c) }

/-- An `r × c` dense zero matrix. -/
def zerosMat (r c : Nat) : List (List Int) :=
  List.replicate r (List.replicate c (0 : Int))

/-- Read entry `(i, j)` of a dense matrix (0 outside the stored shape). -/
def getEntry (mat : List (List Int)) (i j : Nat) : Int :=
  (mat.getD i []).getD j 0

/-- Write value `v` at position `(i, j)` of a dense matrix (no-op outside
the stored shape). -/
def setEntry (mat : List (List Int)) (i j : Nat) (v : Int) : List (List Int) :=
  mat.set i ((mat.getD i []).set j v)

/-! ### Seeded random generator (external collaborator) -/

/-- Modelled from the spec: the component-owned seeded random generator
returned by `random_state(seed)` (from `stellargraph.random`, not part of
this source file).  The spec requires only that it is deterministic given
the seed and owned by the component; it is modelled as a linear
congruential state on `Nat`. -/
def lcgNext (s : Nat) : Nat :=
  (s * 1103515245 + 12345) % 2 ^ 31

/-- Modelled from the spec: `random_state(seed)` yields the generator in
its seed-determined initial state. -/
def randomState (seed : Nat) : Nat := seed

/-- One selection step of the modelled shuffle: repeatedly pick the
`st % length`-th remaining element.  The fuel argument is the length of
the list being shuffled. -/
def shuffleGo : Nat → List Nat → Nat → List Nat × Nat
  | 0, _, st => ([], st)
  | _ + 1, [], st => ([], st)
  | n + 1, x :: xs, st =>
    let l := x :: xs
    let k := st % l.length
    let picked := l.getD k 0
    let rest := l.eraseIdx k
    let res := shuffleGo n rest (lcgNext st)
    (picked :: res.1, res.2)

/-- Modelled from the spec: `rs.shuffle(indices)` — an in-place shuffle of
the index list driven entirely by the component-owned generator state,
returning the shuffled list and the advanced generator. -/
def rngShuffle (st : Nat) (l : List Nat) : List Nat × Nat :=
  shuffleGo l.length l st

/-! ### NodeSequence (and LinkSequence)

`NodeSequence` and `LinkSequence` differ only in documentation and in the
type of the identifiers (node ids vs `(src, dst)` pairs); the bodies of
`__init__`, `__len__`, `__getitem__` and `on_epoch_end` are the same
logic, so one state type generic in the identifier type `α` (and the
target-row type `β`) models both per-entity batchers. -/

/-- The state of a `NodeSequence` / `LinkSequence` object: identifier
list, optional targets, cached size, flags, the current index permutation
and the owned generator state. -/
structure NodeSeq (α β : Type) : Type where
  ids : List α
  targets : Option (List β)
  dataSize : Nat
  shuffle : Bool
  batchSize : Nat
  indices : List Nat
  rng : Nat
deriving DecidableEq

/-- `NodeSequence.on_epoch_end`: reset `indices` to `range(data_size)` and,
if shuffling is enabled, shuffle it with the owned generator. -/
def NodeSeq.onEpochEnd {α β : Type} (s : NodeSeq α β) : NodeSeq α β :=
  let idx := List.range s.dataSize
  if s.shuffle then
    let r := rngShuffle s.rng idx
    { s with indices := r.1, rng := r.2 }
  else
    { s with indices := idx }

/-- `NodeSequence.__init__`: validates that targets (when given) match the
identifiers in length (`ValueError` otherwise), stores the fields, and
calls `on_epoch_end` to set up the initial permutation.  The iterability
and callability `TypeError` checks of the source are enforced by the
types of the embedding. -/
def NodeSequence.mk' {α β : Type} (batchSize : Nat) (ids : List α)
    (targets : Option (List β)) (shuffle : Bool) (seed : Nat) :
    Except Err (NodeSeq α β) :=
  match targets with
  | some t =>
    if ids.length = t.length then
      .ok (NodeSeq.onEpochEnd
        { ids := ids, targets := some t, dataSize := ids.length,
          shuffle := shuffle, batchSize := batchSize,
          indices := [], rng := randomState seed })
    else .error .valueError
  | none =>
    .ok (NodeSeq.onEpochEnd
      { ids := ids, targets := none, dataSize := ids.length,
        shuffle := shuffle, batchSize := batchSize,
        indices := [], rng := randomState seed })

/-- `NodeSequence.__len__`: `int(np.ceil(data_size / batch_size))`,
expressed on naturals as `(N + B - 1) / B`. -/
def NodeSeq.len {α β : Type} (s : NodeSeq α β) : Nat :=
  (s.dataSize + s.batchSize - 1) / s.batchSize

/-- `batch_indices = self.indices[start_idx:end_idx]` with
`start_idx = batch_size * batch_num`. -/
def NodeSeq.batchIndices {α β : Type} (s : NodeSeq α β) (batchNum : Nat) : List Nat :=
  (s.indices.drop (s.batchSize * batchNum)).take s.batchSize

/-- `head_ids = [self.ids[ii] for ii in batch_indices]`. -/
def NodeSeq.headIds {α β : Type} (s : NodeSeq α β) (batchNum : Nat) :
    Except Err (List α) :=
  lookupAll s.ids (s.batchIndices batchNum)

/-- `NodeSequence.__getitem__`: raises `IndexError` when
`start_idx >= data_size`, otherwise slices the current permutation, maps
it to identifiers and target rows, and calls the sampling function.  The
method body assigns no attribute, so the returned state is the input
state. -/
def NodeSeq.getitemSt {α β γ : Type} (sampleFunction : List α → Nat → γ)
    (s : NodeSeq α β) (batchNum : Nat) :
    Except Err ((γ × Option (List β)) × NodeSeq α β) :=
  if s.dataSize ≤ s.batchSize * batchNum then .error .indexError
  else
    match NodeSeq.headIds s batchNum with
    | .error e => .error e
    | .ok heads =>
      match s.targets with
      | none => .ok ((sampleFunction heads batchNum, none), s)
      | some t =>
        match lookupAll t (s.batchIndices batchNum) with
        | .error e => .error e
        | .ok rows => .ok ((sampleFunction heads batchNum, some rows), s)

/-- `LinkSequence.__init__` (lines 170–210): the same validation and
set-up as `NodeSequence.__init__` — target length check (`ValueError`),
store fields, initial `on_epoch_end` — over `(src, dst)` link ids.  The
body coincides with `NodeSequence.mk'` because the two classes' method
bodies are the same logic; only the Python runtime class (observed by
`isinstance`) differs, which `BaseGen` records in its constructor tag. -/
def LinkSequence.mk' (batchSize : Nat) (ids : List (Nat × Nat))
    (targets : Option (List (List Int))) (shuffle : Bool) (seed : Nat) :
    Except Err (NodeSeq (Nat × Nat) (List Int)) :=
  match targets with
  | some t =>
    if ids.length = t.length then
      .ok (NodeSeq.onEpochEnd
        { ids := ids, targets := some t, dataSize := ids.length,
          shuffle := shuffle, batchSize := batchSize,
          indices := [], rng := randomState seed })
    else .error .valueError
  | none =>
    .ok (NodeSeq.onEpochEnd
      { ids := ids, targets := none, dataSize := ids.length,
        shuffle := shuffle, batchSize := batchSize,
        indices := [], rng := randomState seed })

/-! ### OnDemandLinkSequence

The `UnsupervisedSampler` walker is an external collaborator (spec §6:
`run(batch_size) -> list of (identifier_list, target_array)` pairs,
regenerated each call); its output is passed as an oracle argument
wherever the source calls `walker.run` / `self._create_batches()`. -/

/-- One sampler batch: `(head_ids, targets)` with link ids as
`(src, dst)` pairs and binary targets. -/
abbrev LinkBatch : Type := List (Nat × Nat) × List Int

/-- The state of an `OnDemandLinkSequence` object. -/
structure OnDemandSeq : Type where
  batchSize : Nat
  batches : List LinkBatch
  length : Nat
  dataSize : Nat
  shuffle : Bool
deriving DecidableEq

/-- `OnDemandLinkSequence.__init__`: eagerly materializes all batches for
the epoch from the walker (`self._batches = self._create_batches()`) and
records their count (`self.length`) and total size (`self.data_size`)
once.  The walker output is the `walkerBatches` oracle argument; the
callable/walker `TypeError` checks are enforced by the types. -/
def OnDemandLinkSequence.mk' (batchSize : Nat) (walkerBatches : List LinkBatch)
    (shuffle : Bool) : OnDemandSeq :=
  { batchSize := batchSize, batches := walkerBatches,
    length := walkerBatches.length,
    dataSize := (walkerBatches.map (fun b => b.1.length)).sum,
    shuffle := shuffle }

/-- `OnDemandLinkSequence.__getitem__`: raises `IndexError` when
`batch_num >= self.__len__()`; otherwise returns the stored batch's
features (via the sampling function) and targets.  Indexing
`self._batches[batch_num]` itself raises `IndexError` when the stored
`length` is stale and exceeds the stored batch count.  No attribute is
assigned, so the returned state is the input state. -/
def OnDemandLinkSequence.getitemSt {γ : Type}
    (sampleFunction : List (Nat × Nat) → Nat → γ)
    (s : OnDemandSeq) (batchNum : Nat) :
    Except Err ((γ × List Int) × OnDemandSeq) :=
  if s.length ≤ batchNum then .error .indexError
  else
    match s.batches.get? batchNum with
    | some b => .ok ((sampleFunction b.1 batchNum, b.2), s)
    | none => .error .indexError

/-- `OnDemandLinkSequence.on_epoch_end`: only when `shuffle` is set does
it ask the walker for a fresh batch set (`self._batches =
self._create_batches()`); `self.length` and `self.data_size` are never
reassigned.  The fresh walker output is the `newBatches` oracle. -/
def OnDemandLinkSequence.onEpochEnd (s : OnDemandSeq) (newBatches : List LinkBatch) :
    OnDemandSeq :=
  if s.shuffle then { s with batches := newBatches } else s

/-! ### Full-batch packers -/

/-- The adjacency argument of `FullBatchSequence` /
`SparseFullBatchSequence`: either a scipy sparse matrix or a dense numpy
array.  Any other Python value raises the packer's type/value error; the
embedding's argument type enforces that those are the only recognized
inputs. -/
inductive AdjInput : Type where
  | sparse : Coo → AdjInput
  | dense : List (List Int) → AdjInput
deriving DecidableEq

/-- The state of a `FullBatchSequence` object.  `A_dense`, `features` and
`target_indices` carry a leading batch dimension of size 1 in the source
(`_full_batch_array_and_reshape`); the payload without that axis is
stored. -/
structure FullBatchSeq : Type where
  features : List (List Int)
  targetIndices : Option (List Nat)
  ADense : List (List Int)
  targets : Option (List (List Int))
deriving DecidableEq

/-- `FullBatchSequence.__init__`: when targets are given, `len(indices)`
is evaluated — `TypeError` if `indices` is `None`, `ValueError` on a
length mismatch; the adjacency is densified if sparse; all inputs gain a
batch dimension of 1 (implicit here). -/
def FullBatchSequence.mk' (features : List (List Int)) (A : AdjInput)
    (targets : Option (List (List Int))) (indices : Option (List Nat)) :
    Except Err FullBatchSeq :=
  match targets with
  | some t =>
    match indices with
    | none => .error .typeError
    | some idx =>
      if idx.length = t.length then
        match A with
        | .sparse m =>
          .ok { features := features, targetIndices := some idx,
                ADense := m.toarray, targets := some t }
        | .dense d =>
          .ok { features := features, targetIndices := some idx,
                ADense := d, targets := some t }
      else .error .valueError
  | none =>
    match A with
    | .sparse m =>
      .ok { features := features, targetIndices := indices,
            ADense := m.toarray, targets := none }
    | .dense d =>
      .ok { features := features, targetIndices := indices,
            ADense := d, targets := none }

/-- `FullBatchSequence.__len__` is always 1. -/
def FullBatchSeq.len (_ : FullBatchSeq) : Nat := 1

/-- `FullBatchSequence.__getitem__` returns the precomputed inputs and
targets unconditionally, for any index, and assigns no attribute. -/
def FullBatchSeq.getitemSt (s : FullBatchSeq) (_ : Nat) :
    Except Err (((List (List Int) × Option (List Nat) × List (List Int)) ×
      Option (List (List Int))) × FullBatchSeq) :=
  .ok (((s.features, s.targetIndices, s.ADense), s.targets), s)

/-- The state of a `SparseFullBatchSequence` object.  `A_indices` is the
`(1, E, 2)` coordinate array and `A_values` the `(1, E)` value array of
the source; the leading batch dimension is implicit. -/
structure SparseFullBatchSeq : Type where
  features : List (List Int)
  targetIndices : Option (List Nat)
  AIndices : List (Nat × Nat)
  AValues : List Int
  targets : Option (List (List Int))
deriving DecidableEq

/-- `SparseFullBatchSequence.__init__`: target/indices checks as in the
dense packer; the adjacency must be a scipy sparse matrix (`ValueError`
otherwise) and is converted to COO; its coordinates and values become
`A_indices` / `A_values`. -/
def SparseFullBatchSequence.mk' (features : List (List Int)) (A : AdjInput)
    (targets : Option (List (List Int))) (indices : Option (List Nat)) :
    Except Err SparseFullBatchSeq :=
  let build : Coo → Option (List Nat) → Option (List (List Int)) →
      SparseFullBatchSeq := fun m idx t =>
    { features := features, targetIndices := idx,
      AIndices := m.entries.map (fun e => (e.1, e.2.1)),
      AValues := m.entries.map (fun e => e.2.2), targets := t }
  match targets with
  | some t =>
    match indices with
    | none => .error .typeError
    | some idx =>
      if idx.length = t.length then
        match A with
        | .sparse m => .ok (build m (some idx) (some t))
        | .dense _ => .error .valueError
      else .error .valueError
  | none =>
    match A with
    | .sparse m => .ok (build m indices none)
    | .dense _ => .error .valueError

/-- `SparseFullBatchSequence.__len__` is always 1. -/
def SparseFullBatchSeq.len (_ : SparseFullBatchSeq) : Nat := 1

/-- `SparseFullBatchSequence.__getitem__` returns the precomputed inputs
and targets unconditionally and assigns no attribute. -/
def SparseFullBatchSeq.getitemSt (s : SparseFullBatchSeq) (_ : Nat) :
    Except Err (((List (List Int) × Option (List Nat) ×
      List (Nat × Nat) × List Int) × Option (List (List Int))) ×
      SparseFullBatchSeq) :=
  .ok (((s.features, s.targetIndices, s.AIndices, s.AValues), s.targets), s)

/-- The state of a `RelationalFullBatchNodeSequence` object: one
adjacency per relation, packed sparse (index/value pairs) or dense. -/
structure RelationalSeq : Type where
  features : List (List Int)
  targetIndices : Option (List Nat)
  useSparse : Bool
  AIndicesR : List (List (Nat × Nat))
  AValuesR : List (List Int)
  AsDense : List (List (List Int))
  targets : Option (List (List Int))
deriving DecidableEq

/-- `RelationalFullBatchNodeSequence.__init__`: target/indices length
check, then each relation's adjacency is packed independently, sparse
(coordinate/value pair per relation) or dense. -/
def RelationalFullBatchNodeSequence.mk' (features : List (List Int))
    (As : List Coo) (useSparse : Bool)
    (targets : Option (List (List Int))) (indices : Option (List Nat)) :
    Except Err RelationalSeq :=
  let build : Option (List Nat) → Option (List (List Int)) → RelationalSeq :=
    fun idx t =>
      if useSparse then
        { features := features, targetIndices := idx, useSparse := true,
          AIndicesR := As.map (fun m => m.entries.map (fun e => (e.1, e.2.1))),
          AValuesR := As.map (fun m => m.entries.map (fun e => e.2.2)),
          AsDense := [], targets := t }
      else
        { features := features, targetIndices := idx, useSparse := false,
          AIndicesR := [], AValuesR := [],
          AsDense := As.map Coo.toarray, targets := t }
  match targets with
  | some t =>
    match indices with
    | none => .error .typeError
    | some idx =>
      if idx.length = t.length then .ok (build (some idx) (some t))
      else .error .valueError
  | none => .ok (build indices none)

/-- `RelationalFullBatchNodeSequence.__len__` is always 1. -/
def RelationalSeq.len (_ : RelationalSeq) : Nat := 1

/-- `RelationalFullBatchNodeSequence.__getitem__` returns the precomputed
inputs (`[features, target_indices] + As`) and targets unconditionally
and assigns no attribute. -/
def RelationalSeq.getitemSt (s : RelationalSeq) (_ : Nat) :
    Except Err (((List (List Int) × Option (List Nat) ×
      List (List (Nat × Nat)) × List (List Int) × List (List (List Int))) ×
      Option (List (List Int))) × RelationalSeq) :=
  .ok (((s.features, s.targetIndices, s.AIndicesR, s.AValuesR, s.AsDense),
    s.targets), s)

/-! ### GraphSequence (graph batcher) -/

/-- The graph collaborator (spec §6): a StellarGraph exposing
`number_of_nodes()`, `node_features(nodes)` (an `n × F` matrix) and
`to_adjacency_matrix()` (a fresh sparse matrix each call). -/
structure Graph : Type where
  numberOfNodes : Nat
  nodeFeatures : List (List Int)
  adjacencyMatrix : Coo
deriving DecidableEq

instance : Inhabited Graph := ⟨{ numberOfNodes := 0, nodeFeatures := [], adjacencyMatrix := ⟨0, 0, []⟩ }⟩

/-- The state of a `GraphSequence` object after a successful
construction: graph list, the per-graph cached adjacency matrices
(`self.normalized_adjs`), optional targets, batch size. -/
structure GraphSeq : Type where
  graphs : List Graph
  normalizedAdjs : List Coo
  targets : Option (List (List Int))
  batchSize : Nat
deriving DecidableEq

/-- `GraphSequence.on_epoch_end`: `random.shuffle` draws a fresh
permutation of `range(len(graphs))` from process-wide randomness (the
`perm` oracle argument, always a permutation of `range(len(graphs))`)
and reorders graphs, cached adjacencies and targets in lockstep. -/
def GraphSeq.onEpochEnd (s : GraphSeq) (perm : List Nat) : GraphSeq :=
  { s with
    graphs := perm.map (fun i => s.graphs.getD i default),
    normalizedAdjs := perm.map (fun i => s.normalizedAdjs.getD i ⟨0, 0, []⟩),
    targets := s.targets.map (fun t => perm.map (fun i => t.getD i [])) }

/-- `GraphSequence.__init__`.  Validates the target count (`ValueError`).
With `normalize=True` it caches `normalize_adj(graph.to_adjacency_matrix())`
per graph in `self.normalized_adjs` (`normalize_adj` is an external
collaborator, passed as the `normalizeAdj` parameter).  With
`normalize=False` the source assigns the raw matrices to the misspelled
attribute `self.normalize_adjs` (line 578), leaving `self.normalized_adjs`
unset, so the subsequent read `np.asanyarray(self.normalized_adjs)`
(line 580) raises `AttributeError`.  Finally `on_epoch_end` shuffles with
process-wide randomness (the `perm` oracle). -/
def GraphSequence.mk' (normalizeAdj : Coo → Coo) (graphs : List Graph)
    (targets : Option (List (List Int))) (normalize : Bool) (batchSize : Nat)
    (perm : List Nat) : Except Err GraphSeq :=
  let checked : Except Err Unit :=
    match targets with
    | some t => if graphs.length = t.length then .ok () else .error .valueError
    | none => .ok ()
  match checked with
  | .error e => .error e
  | .ok _ =>
    if normalize then
      .ok (GraphSeq.onEpochEnd
        { graphs := graphs,
          normalizedAdjs := graphs.map (fun g => normalizeAdj g.adjacencyMatrix),
          targets := targets, batchSize := batchSize } perm)
    else
      -- the raw adjacencies go to the misspelled `normalize_adjs`; reading
      -- the real `normalized_adjs` attribute then fails
      .error .attributeError

/-- `GraphSequence.__len__`: `int(np.ceil(len(graphs) / batch_size))`. -/
def GraphSeq.len (s : GraphSeq) : Nat :=
  (s.graphs.length + s.batchSize - 1) / s.batchSize

/-- `np.pad(graph.node_features(graph.nodes()), ((0, max_nodes - n), (0, 0)))`:
append zero rows along the node axis up to `max_nodes`, feature width
unchanged. -/
def padFeatures (g : Graph) (maxNodes : Nat) : List (List Int) :=
  g.nodeFeatures ++
    List.replicate (maxNodes - g.numberOfNodes)
      (List.replicate (g.nodeFeatures.headD []).length (0 : Int))

/-- One batch of `GraphSequence`: stacked padded features, boolean masks,
stacked densified adjacencies. -/
structure GraphBatch : Type where
  features : List (List (List Int))
  masks : List (List Bool)
  adjs : List (List (List Int))
deriving DecidableEq

/-- `GraphSequence.__getitem__`: slices graphs and cached adjacencies at
`[index*B, (index+1)*B)` (numpy slicing, no bounds check — an empty slice
makes `max([...])` raise `ValueError`), computes `max_nodes`, zero-pads
features, resizes each cached adjacency **in place** to
`(max_nodes, max_nodes)` (so the returned state carries the resized
matrices in `normalized_adjs`), densifies them, and builds the masks. -/
def GraphSeq.getitemSt (s : GraphSeq) (index : Nat) :
    Except Err ((GraphBatch × Option (List (List Int))) × GraphSeq) :=
  let batchStart := index * s.batchSize
  let graphs := (s.graphs.drop batchStart).take s.batchSize
  let adjGraphs := (s.normalizedAdjs.drop batchStart).take s.batchSize
  match graphs with
  | [] => .error .valueError  -- max() of an empty sequence
  | _ :: _ =>
    let maxNodes := (graphs.map Graph.numberOfNodes).foldl Nat.max 0
    let graphTargets := s.targets.map (fun t => (t.drop batchStart).take s.batchSize)
    let features := graphs.map (fun g => padFeatures g maxNodes)
    let resized := adjGraphs.map (fun a => a.resize maxNodes maxNodes)
    let adjArr := resized.map Coo.toarray
    let masks := graphs.map
      (fun g => (List.range maxNodes).map (fun j => decide (j < g.numberOfNodes)))
    let s2 := { s with
      normalizedAdjs := (s.normalizedAdjs.take batchStart) ++ resized ++
        (s.normalizedAdjs.drop (batchStart + s.batchSize)) }
    .ok (({ features := features, masks := masks, adjs := adjArr },
      graphTargets), s2)

/-! ### CorruptedNodeSequence -/

/-- The possible wrapped sources of `CorruptedNodeSequence`, one
constructor per Sequence class of the source file.  `NodeSequence` and
`LinkSequence` share the state shape (`NodeSeq`) but are distinct Python
classes — `LinkSequence` subclasses Keras `Sequence`, not
`NodeSequence` — so they are distinct constructors here: the constructor
tag is what the source's `isinstance` dispatch observes.  `node` carries
node ids with integer-row targets; `link` carries `(src, dst)` link ids. -/
inductive BaseGen : Type where
  | fullBatch : FullBatchSeq → BaseGen
  | sparseFullBatch : SparseFullBatchSeq → BaseGen
  | relational : RelationalSeq → BaseGen
  | node : NodeSeq Nat (List Int) → BaseGen
  | link : NodeSeq (Nat × Nat) (List Int) → BaseGen
  | onDemand : OnDemandSeq → BaseGen
  | graph : GraphSeq → BaseGen
deriving DecidableEq

/-- The state of a `CorruptedNodeSequence` object: the wrapped source and
the fixed real-vs-corrupted target rows. -/
structure CorruptedSeq : Type where
  base : BaseGen
  targetRows : List (List Int)
deriving DecidableEq

/-- `CorruptedNodeSequence.__init__`: dispatches on the runtime type of
the wrapped source.  `FullBatchSequence` / `SparseFullBatchSequence` get
targets `np.zeros((1, len(target_indices), 2))` with column 0 set to 1 —
`target_indices` is the reshaped `(1, N)` array, so its Python `len` is
its leading dimension 1, giving a single `[1, 0]` row; `NodeSequence`
gets `batch_size` rows of `[1, 0]`; every other source type — including
`LinkSequence`, which is not an instance of any of the three accepted
classes — falls to the `else` branch and raises `TypeError`. -/
def CorruptedNodeSequence.mk' (b : BaseGen) : Except Err CorruptedSeq :=
  match b with
  | .fullBatch _ => .ok { base := b, targetRows := List.replicate 1 [(1 : Int), 0] }
  | .sparseFullBatch _ => .ok { base := b, targetRows := List.replicate 1 [(1 : Int), 0] }
  | .node s => .ok { base := b, targetRows := List.replicate s.batchSize [(1 : Int), 0] }
  | _ => .error .typeError

/-- The reconstruction procedure named by the spec's sparse/dense
equivalence property (testable property 4): place each value of the
value array at the `(row, col)` position given by the index array,
starting from a dense zero matrix of the adjacency's shape. -/
def reconstructDense (r c : Nat) (idxs : List (Nat × Nat)) (vals : List Int) :
    List (List Int) :=
  (idxs.zip vals).foldl (fun acc p => setEntry acc p.1.1 p.1.2 p.2) (zerosMat r c)

/-! ### Concrete example values used in closed theorems -/

instance : Inhabited GraphSeq := ⟨{ graphs := [], normalizedAdjs := [], targets := none, batchSize := 0 }⟩

/-- Extract the post-state of an embedded method call, with a default for
the error case. -/
def postStateOf {ρ σ : Type} (e : Except Err (ρ × σ)) (d : σ) : σ :=
  match e with
  | .ok r => r.2
  | .error _ => d

/-- Example graph with 3 nodes. -/
def exGraph3 : Graph :=
  { numberOfNodes := 3, nodeFeatures := [[1], [2], [3]],
    adjacencyMatrix := ⟨3, 3, [(0, 1, 1), (1, 0, 1)]⟩ }

/-- Example graph with 5 nodes. -/
def exGraph5 : Graph :=
  { numberOfNodes := 5, nodeFeatures := [[1], [1], [1], [1], [1]],
    adjacencyMatrix := ⟨5, 5, [(0, 4, 1)]⟩ }

/-- Example graph with 2 nodes. -/
def exGraph2 : Graph :=
  { numberOfNodes := 2, nodeFeatures := [[7], [8]],
    adjacencyMatrix := ⟨2, 2, [(0, 1, 2), (1, 0, 2)]⟩ }

/-- A `NodeSequence` built over 3 ids with batch size 2, shuffling, seed 7. -/
def wNodeSeq : NodeSeq Nat (List Int) :=
  okD (NodeSequence.mk' 2 [10, 20, 30] none true 7)
    ⟨[], none, 0, false, 0, [], 0⟩

/-- A `GraphSequence` over one 3-node graph, batch size 1. -/
def wGraphSeq1 : GraphSeq :=
  okD (GraphSequence.mk' (fun a => a) [exGraph3] none true 1 [0]) default

/-- A `GraphSequence` over a 3-node and a 2-node graph, batch size 2. -/
def wGraphSeq2 : GraphSeq :=
  okD (GraphSequence.mk' (fun a => a) [exGraph3, exGraph2] none true 2 [0, 1]) default

/-- An `OnDemandLinkSequence` with one sampler batch and shuffling on. -/
def wOnDemand : OnDemandSeq :=
  OnDemandLinkSequence.mk' 2 [([(1, 2), (3, 4)], [1, 0])] true

/-- An `OnDemandLinkSequence` with one sampler batch and shuffling off. -/
def wOnDemandNoShuffle : OnDemandSeq :=
  OnDemandLinkSequence.mk' 2 [([(1, 2), (3, 4)], [1, 0])] false

/-- A `GraphSequence` over graphs with node counts `[3, 5, 2]` and batch
size 3 (identity shuffle oracle). -/
def wGraphSeq3 : GraphSeq :=
  okD (GraphSequence.mk' (fun a => a) [exGraph3, exGraph5, exGraph2] none true 3
    [0, 1, 2]) default

/-- The dense full-batch packer over a 2-node sparse adjacency. -/
def wFullBatch : FullBatchSeq :=
  { features := [[1], [2]], targetIndices := none, ADense := [[0, 5], [7, 0]],
    targets := none }

/-- The sparse full-batch packer over the same 2-node adjacency. -/
def wSparseFullBatch : SparseFullBatchSeq :=
  { features := [[1], [2]], targetIndices := none,
    AIndices := [(0, 1), (1, 0)], AValues := [5, 7], targets := none }

/-- A `LinkSequence` built over 2 link ids with batch size 2, seed 7. -/
def wLinkSeq : NodeSeq (Nat × Nat) (List Int) :=
  okD (LinkSequence.mk' 2 [(1, 2), (3, 4)] none true 7)
    ⟨[], none, 0, false, 0, [], 0⟩

/-- A `RelationalFullBatchNodeSequence` over one sparse relation. -/
def wRelational : RelationalSeq :=
  okD (RelationalFullBatchNodeSequence.mk' [[1], [2]] [⟨2, 2, [(0, 1, 1)]⟩] true none none)
    { features := [], targetIndices := none, useSparse := true,
      AIndicesR := [], AValuesR := [], AsDense := [], targets := none }

/-! ## Theorems -/

/-- Folding `on_epoch_end` over any sequence of walker outputs never
changes the stored `length` and `data_size` of an `OnDemandLinkSequence`. -/
theorem onDemand_foldl_frame (nbs : List (List LinkBatch)) :
    ∀ s : OnDemandSeq,
      (nbs.foldl OnDemandLinkSequence.onEpochEnd s).length = s.length ∧
      (nbs.foldl OnDemandLinkSequence.onEpochEnd s).dataSize = s.dataSize := by
  induction nbs with
  | nil => intro s; exact ⟨rfl, rfl⟩
  | cons nb nbs ih =>
    intro s
    have h := ih (OnDemandLinkSequence.onEpochEnd s nb)
    have hl : (OnDemandLinkSequence.onEpochEnd s nb).length = s.length := by
      unfold OnDemandLinkSequence.onEpochEnd
      by_cases hs : s.shuffle <;> simp [hs]
    have hd : (OnDemandLinkSequence.onEpochEnd s nb).dataSize = s.dataSize := by
      unfold OnDemandLinkSequence.onEpochEnd
      by_cases hs : s.shuffle <;> simp [hs]
    simpa [List.foldl_cons, hl, hd] using h

/-- C10: for every `OnDemandLinkSequence`, after any number of epoch-end
calls (each with arbitrary fresh walker output, even of a different batch
count) the reported length is still the batch count computed at
construction, and the stored data size is likewise unchanged: epoch end
replaces only the batch list. -/
theorem c10_length_fixed (batchSize : Nat) (wb : List LinkBatch) (sh : Bool)
    (nbs : List (List LinkBatch)) :
    (nbs.foldl OnDemandLinkSequence.onEpochEnd
      (OnDemandLinkSequence.mk' batchSize wb sh)).length = wb.length ∧
    (nbs.foldl OnDemandLinkSequence.onEpochEnd
      (OnDemandLinkSequence.mk' batchSize wb sh)).dataSize =
      (wb.map (fun b => b.1.length)).sum := by
  have h := onDemand_foldl_frame nbs (OnDemandLinkSequence.mk' batchSize wb sh)
  exact ⟨h.1, h.2⟩

/-- C6 (amended): the batch set of an `OnDemandLinkSequence` is adopted
from the walker eagerly at construction, and an end-of-epoch call
replaces it with a fresh walker run only when shuffling is enabled; with
`shuffle=False` the epoch-end call leaves the object unchanged and the
sampler output is discarded. -/
theorem c6_epoch_end_regeneration :
    (∀ (batchSize : Nat) (wb : List LinkBatch) (sh : Bool),
      (OnDemandLinkSequence.mk' batchSize wb sh).batches = wb) ∧
    (∀ (s : OnDemandSeq) (nb : List LinkBatch),
      s.shuffle = true →
        OnDemandLinkSequence.onEpochEnd s nb = { s with batches := nb }) ∧
    (∀ (s : OnDemandSeq) (nb : List LinkBatch),
      s.shuffle = false → OnDemandLinkSequence.onEpochEnd s nb = s) := by
  refine ⟨fun _ _ _ => rfl, fun s nb hs => ?_, fun s nb hs => ?_⟩ <;>
    simp [OnDemandLinkSequence.onEpochEnd, hs]

/-- C6 witness: the two epoch-end behaviours at concrete states. -/
theorem c6_witness :
    OnDemandLinkSequence.onEpochEnd wOnDemand [([(5, 6)], [1])] =
      { wOnDemand with batches := [([(5, 6)], [1])] } ∧
    OnDemandLinkSequence.onEpochEnd wOnDemandNoShuffle [([(5, 6)], [1])] =
      wOnDemandNoShuffle :=
  ⟨c6_epoch_end_regeneration.2.1 wOnDemand [([(5, 6)], [1])] (by decide),
   c6_epoch_end_regeneration.2.2 wOnDemandNoShuffle [([(5, 6)], [1])] (by decide)⟩

/-- C6 counterexample: with `shuffle=False` an end-of-epoch call does not
ask the walker for a fresh batch set — the fresh batches are not adopted
and the object is unchanged, refuting "every end-of-epoch call asks the
walk sampler to produce a fresh complete set of batches". -/
theorem c6_counterexample :
    OnDemandLinkSequence.onEpochEnd wOnDemandNoShuffle [([(5, 6)], [1])] =
      wOnDemandNoShuffle ∧
    wOnDemandNoShuffle.batches ≠ [([(5, 6)], [1])] := by
  decide

/-- C3: constructing a `GraphSequence` with adjacency normalization
disabled never succeeds — the raw adjacencies are assigned to the
misspelled attribute `normalize_adjs` and the following read of
`normalized_adjs` raises `AttributeError`; with normalization enabled the
same arguments construct fine.  (The claim describes the documented
intent; the code's typo is the bug.) -/
theorem c3_normalize_false_bug :
    (∀ (normalizeAdj : Coo → Coo) (graphs : List Graph) (batchSize : Nat)
      (perm : List Nat),
      GraphSequence.mk' normalizeAdj graphs none false batchSize perm =
        .error .attributeError) ∧
    GraphSequence.mk' (fun a => a) [exGraph3] none false 1 [0] =
      .error .attributeError ∧
    GraphSequence.mk' (fun a => a) [exGraph3] none true 1 [0] = .ok wGraphSeq1 := by
  refine ⟨fun _ _ _ _ => rfl, by decide, by decide⟩

/-- C5 (amended): `CorruptedNodeSequence` accepts exactly the dense and
sparse full-batch packers and the node-flavoured per-entity batcher
(`NodeSequence`) as wrapped source; every other source — including the
relational full-batch variant and the link-flavoured per-entity batcher
(`LinkSequence`) — is rejected with a `TypeError`. -/
theorem c5_accepted_sources (b : BaseGen) :
    (∃ s, CorruptedNodeSequence.mk' b = .ok s) ↔
      ((∃ x, b = .fullBatch x) ∨ (∃ x, b = .sparseFullBatch x) ∨
        (∃ x, b = .node x)) := by
  cases b <;> simp [CorruptedNodeSequence.mk']

/-- C5 counterexample: a legitimately constructed
`RelationalFullBatchNodeSequence` and a legitimately constructed
`LinkSequence` — the link flavour of the spec's per-entity batcher — are
both rejected by `CorruptedNodeSequence` with a `TypeError`, refuting the
claim that construction succeeds for the relational full-batch variant
and for every per-entity batcher. -/
theorem c5_counterexample :
    RelationalFullBatchNodeSequence.mk' [[1], [2]] [⟨2, 2, [(0, 1, 1)]⟩] true
      none none = .ok wRelational ∧
    CorruptedNodeSequence.mk' (.relational wRelational) = .error .typeError ∧
    LinkSequence.mk' 2 [(1, 2), (3, 4)] none true 7 = .ok wLinkSeq ∧
    CorruptedNodeSequence.mk' (.link wLinkSeq) = .error .typeError := by
  decide

/-- `N ≤ B * ceil(N / B)` for positive `B`, with the ceiling written as
the source's `int(np.ceil(N / B)) = (N + B - 1) / B`. -/
theorem le_mul_ceilDivNat (N B : Nat) (hB : 0 < B) :
    N ≤ B * ((N + B - 1) / B) := by
  have h1 := Nat.div_add_mod (N + B - 1) B
  have h2 := Nat.mod_lt (N + B - 1) hB
  omega

/-- C1 (amended): for the per-entity batchers and the on-demand planner,
`batch(i)` with `i` out of range (in particular `i = length()`) raises an
out-of-range `IndexError`; the graph batcher also fails rather than
returning a batch at such `i`, but with a `ValueError` from taking
`max()` of the empty graph slice — it performs no explicit bounds check. -/
theorem c1_batch_bounds :
    (∀ {α β γ : Type} (sf : List α → Nat → γ) (s : NodeSeq α β) (i : Nat),
      s.dataSize ≤ s.batchSize * i →
        NodeSeq.getitemSt sf s i = .error .indexError) ∧
    (∀ {α β γ : Type} (sf : List α → Nat → γ) (s : NodeSeq α β),
      0 < s.batchSize →
        NodeSeq.getitemSt sf s s.len = .error .indexError) ∧
    (∀ {γ : Type} (sf : List (Nat × Nat) → Nat → γ) (s : OnDemandSeq) (i : Nat),
      s.length ≤ i →
        OnDemandLinkSequence.getitemSt sf s i = .error .indexError) ∧
    (∀ (s : GraphSeq) (i : Nat),
      s.graphs.length ≤ i * s.batchSize →
        GraphSeq.getitemSt s i = .error .valueError) ∧
    (∀ (s : GraphSeq), 0 < s.batchSize →
        GraphSeq.getitemSt s s.len = .error .valueError) := by
  have hNode : ∀ {α β γ : Type} (sf : List α → Nat → γ) (s : NodeSeq α β) (i : Nat),
      s.dataSize ≤ s.batchSize * i →
        NodeSeq.getitemSt sf s i = .error .indexError := by
    intro α β γ sf s i h
    unfold NodeSeq.getitemSt
    rw [if_pos h]
  have hGraph : ∀ (s : GraphSeq) (i : Nat),
      s.graphs.length ≤ i * s.batchSize →
        GraphSeq.getitemSt s i = .error .valueError := by
    intro s i h
    have hdrop : s.graphs.drop (i * s.batchSize) = [] := List.drop_eq_nil_of_le h
    simp [GraphSeq.getitemSt, hdrop]
  refine ⟨hNode, ?_, ?_, hGraph, ?_⟩
  · intro α β γ sf s hB
    apply hNode
    simpa [NodeSeq.len] using le_mul_ceilDivNat s.dataSize s.batchSize hB
  · intro γ sf s i h
    unfold OnDemandLinkSequence.getitemSt
    rw [if_pos h]
  · intro s hB
    apply hGraph
    have := le_mul_ceilDivNat s.graphs.length s.batchSize hB
    simpa [GraphSeq.len, Nat.mul_comm] using this

/-- C1 witness: the out-of-range behaviours at concrete states,
including `batch(length())`. -/
theorem c1_witness :
    NodeSeq.getitemSt (fun (ids : List Nat) (_ : Nat) => ids) wNodeSeq 2 =
      .error .indexError ∧
    NodeSeq.getitemSt (fun (ids : List Nat) (_ : Nat) => ids) wNodeSeq
      wNodeSeq.len = .error .indexError ∧
    OnDemandLinkSequence.getitemSt (fun ids _ => ids) wOnDemand 1 =
      .error .indexError ∧
    GraphSeq.getitemSt wGraphSeq1 1 = .error .valueError ∧
    GraphSeq.getitemSt wGraphSeq1 wGraphSeq1.len = .error .valueError :=
  ⟨c1_batch_bounds.1 (fun ids _ => ids) wNodeSeq 2 (by decide),
   c1_batch_bounds.2.1 (fun ids _ => ids) wNodeSeq (by decide),
   c1_batch_bounds.2.2.1 (fun ids _ => ids) wOnDemand 1 (by decide),
   c1_batch_bounds.2.2.2.1 wGraphSeq1 1 (by decide),
   c1_batch_bounds.2.2.2.2 wGraphSeq1 (by decide)⟩

/-- C1 counterexample: on a constructed `GraphSequence`,
`batch(length())` fails with a `ValueError` (from `max()` of an empty
sequence), not an out-of-range `IndexError` — refuting "fails with an
out-of-range error" for the graph batcher. -/
theorem c1_counterexample :
    GraphSequence.mk' (fun a => a) [exGraph3] none true 1 [0] = .ok wGraphSeq1 ∧
    GraphSeq.len wGraphSeq1 = 1 ∧
    GraphSeq.getitemSt wGraphSeq1 (GraphSeq.len wGraphSeq1) =
      .error .valueError ∧
    Err.valueError ≠ Err.indexError := by
  decide

/-- C4 (amended): for the per-entity batcher, the on-demand planner and
all three full-batch packers, `batch(i)` either fails or returns with the
object state unchanged; for the graph batcher, `batch(i)` leaves the
graph list, targets and batch size unchanged but resizes the cached
adjacency matrices of the selected slice in place to the batch's padded
shape — the adjacency cache is *not* read-only during `batch()`. -/
theorem c4_frame_effects :
    (∀ {α β γ : Type} (sf : List α → Nat → γ) (s : NodeSeq α β) (i : Nat),
      (∃ e, NodeSeq.getitemSt sf s i = .error e) ∨
      (∃ out, NodeSeq.getitemSt sf s i = .ok (out, s))) ∧
    (∀ {γ : Type} (sf : List (Nat × Nat) → Nat → γ) (s : OnDemandSeq) (i : Nat),
      (∃ e, OnDemandLinkSequence.getitemSt sf s i = .error e) ∨
      (∃ out, OnDemandLinkSequence.getitemSt sf s i = .ok (out, s))) ∧
    (∀ (s : FullBatchSeq) (i : Nat), ∃ out, s.getitemSt i = .ok (out, s)) ∧
    (∀ (s : SparseFullBatchSeq) (i : Nat), ∃ out, s.getitemSt i = .ok (out, s)) ∧
    (∀ (s : RelationalSeq) (i : Nat), ∃ out, s.getitemSt i = .ok (out, s)) ∧
    (∀ (s : GraphSeq) (i : Nat),
      (∃ e, GraphSeq.getitemSt s i = .error e) ∨
      (∃ out m, GraphSeq.getitemSt s i = .ok (out,
        { s with normalizedAdjs :=
            (s.normalizedAdjs.take (i * s.batchSize)) ++
            (((s.normalizedAdjs.drop (i * s.batchSize)).take s.batchSize).map
              (fun a => a.resize m m)) ++
            (s.normalizedAdjs.drop (i * s.batchSize + s.batchSize)) }))) := by
  refine ⟨?_, ?_, fun s i => ⟨_, rfl⟩, fun s i => ⟨_, rfl⟩, fun s i => ⟨_, rfl⟩, ?_⟩
  · intro α β γ sf s i
    by_cases h : s.dataSize ≤ s.batchSize * i
    · exact Or.inl ⟨.indexError, by unfold NodeSeq.getitemSt; rw [if_pos h]⟩
    · cases hh : NodeSeq.headIds s i with
      | error e =>
        exact Or.inl ⟨e, by unfold NodeSeq.getitemSt; rw [if_neg h, hh]⟩
      | ok heads =>
        cases ht : s.targets with
        | none =>
          refine Or.inr ⟨(sf heads i, none), ?_⟩
          unfold NodeSeq.getitemSt
          rw [if_neg h, hh, ht]
        | some t =>
          cases hl : lookupAll t (s.batchIndices i) with
          | error e =>
            refine Or.inl ⟨e, ?_⟩
            unfold NodeSeq.getitemSt
            rw [if_neg h, hh, ht]
            simp only [hl]
          | ok rows =>
            refine Or.inr ⟨(sf heads i, some rows), ?_⟩
            unfold NodeSeq.getitemSt
            rw [if_neg h, hh, ht]
            simp only [hl]
  · intro γ sf s i
    by_cases h : s.length ≤ i
    · exact Or.inl ⟨.indexError,
        by unfold OnDemandLinkSequence.getitemSt; rw [if_pos h]⟩
    · cases hb : s.batches.get? i with
      | none =>
        refine Or.inl ⟨.indexError, ?_⟩
        unfold OnDemandLinkSequence.getitemSt
        rw [if_neg h, hb]
      | some b =>
        refine Or.inr ⟨(sf b.1 i, b.2), ?_⟩
        unfold OnDemandLinkSequence.getitemSt
        rw [if_neg h, hb]
  · intro s i
    simp only [GraphSeq.getitemSt]
    split
    · exact Or.inl ⟨.valueError, rfl⟩
    · exact Or.inr ⟨_, _, rfl⟩

/-- C4 counterexample: on a constructed `GraphSequence` over a 3-node and
a 2-node graph, `batch(0)` changes the cached adjacency matrices (the
2 × 2 cache entry is resized to 3 × 3 in place), refuting "calling
batch(i) leaves all construction-time state unchanged". -/
theorem c4_counterexample :
    (postStateOf (GraphSeq.getitemSt wGraphSeq2 0) wGraphSeq2).normalizedAdjs ≠
      wGraphSeq2.normalizedAdjs := by
  decide

/-- C7: two per-entity batchers constructed with the same seed and
identical identifier lists, targets, batch size and shuffle flag have
identical index permutations — and hence identical batch index slices —
after any number of end-of-epoch calls.  Shuffling consumes only the
component-owned generator (`self._rs`, seeded by `random_state(seed)`),
which the embedding models as part of the object state; no process-wide
randomness enters `on_epoch_end`. -/
theorem c7_seed_reproducible {α β : Type} (B : Nat) (ids : List α)
    (tg : Option (List β)) (sh : Bool) (seed : Nat) (k : Nat)
    (s1 s2 : NodeSeq α β)
    (h1 : NodeSequence.mk' B ids tg sh seed = .ok s1)
    (h2 : NodeSequence.mk' B ids tg sh seed = .ok s2) :
    (NodeSeq.onEpochEnd^[k] s1).indices = (NodeSeq.onEpochEnd^[k] s2).indices ∧
    ∀ i, (NodeSeq.onEpochEnd^[k] s1).batchIndices i =
      (NodeSeq.onEpochEnd^[k] s2).batchIndices i := by
  rw [h1] at h2
  cases h2
  exact ⟨rfl, fun _ => rfl⟩

/-- C7 witness: the reproducibility theorem applied at a concrete seeded
construction, after three epoch-end calls. -/
theorem c7_witness :
    (NodeSeq.onEpochEnd^[3] wNodeSeq).indices =
      (NodeSeq.onEpochEnd^[3] wNodeSeq).indices ∧
    ∀ i, (NodeSeq.onEpochEnd^[3] wNodeSeq).batchIndices i =
      (NodeSeq.onEpochEnd^[3] wNodeSeq).batchIndices i :=
  c7_seed_reproducible 2 [10, 20, 30] none true 7 3 wNodeSeq wNodeSeq
    (by decide) (by decide)

/-- The modelled shuffle permutes its input: selecting and removing one
element per step reorders the list without loss or duplication. -/
theorem shuffleGo_perm : ∀ (n : Nat) (l : List Nat) (st : Nat),
    l.length = n → (shuffleGo n l st).1.Perm l := by
  intro n
  induction n with
  | zero =>
    intro l st h
    rw [List.length_eq_zero] at h
    subst h
    exact List.Perm.refl _
  | succ n ih =>
    intro l st h
    cases l with
    | nil => simp at h
    | cons x xs =>
      have hk : st % (x :: xs).length < (x :: xs).length :=
        Nat.mod_lt _ (by simp)
      have hlen : ((x :: xs).eraseIdx (st % (x :: xs).length)).length = n := by
        have := List.length_eraseIdx_add_one hk
        omega
      have htail := ih ((x :: xs).eraseIdx (st % (x :: xs).length)) (lcgNext st) hlen
      have hgetD : (x :: xs).getD (st % (x :: xs).length) 0 =
          (x :: xs)[st % (x :: xs).length] := List.getD_eq_getElem _ _ hk
      have hperm1 : (x :: xs).Perm
          ((x :: xs)[st % (x :: xs).length] ::
            (x :: xs).eraseIdx (st % (x :: xs).length)) := by
        refine (List.perm_cons_erase (List.getElem_mem hk)).trans ?_
        exact List.Perm.cons _ (List.erase_getElem hk)
      show ((x :: xs).getD (st % (x :: xs).length) 0 ::
        (shuffleGo n ((x :: xs).eraseIdx (st % (x :: xs).length)) (lcgNext st)).1).Perm
        (x :: xs)
      rw [hgetD]
      exact (List.Perm.cons _ htail).trans hperm1.symm

/-- `on_epoch_end` always leaves `indices` a permutation of
`range(data_size)`. -/
theorem onEpochEnd_indices_perm {α β : Type} (s : NodeSeq α β) :
    (NodeSeq.onEpochEnd s).indices.Perm (List.range s.dataSize) := by
  unfold NodeSeq.onEpochEnd
  by_cases h : s.shuffle = true
  · simp only [h, if_pos]
    exact shuffleGo_perm _ _ _ rfl
  · simp only [h]
    simp

/-- `on_epoch_end` touches only `indices` and the generator state. -/
theorem onEpochEnd_fields {α β : Type} (s : NodeSeq α β) :
    (NodeSeq.onEpochEnd s).ids = s.ids ∧
    (NodeSeq.onEpochEnd s).targets = s.targets ∧
    (NodeSeq.onEpochEnd s).dataSize = s.dataSize ∧
    (NodeSeq.onEpochEnd s).batchSize = s.batchSize ∧
    (NodeSeq.onEpochEnd s).shuffle = s.shuffle := by
  unfold NodeSeq.onEpochEnd
  by_cases h : s.shuffle = true <;> simp [h]

/-- Iterated `on_epoch_end` preserves the construction-time fields and
the permutation invariant of `indices`. -/
theorem iterate_onEpochEnd_state {α β : Type} (k : Nat) (s : NodeSeq α β) :
    (NodeSeq.onEpochEnd^[k] s).ids = s.ids ∧
    (NodeSeq.onEpochEnd^[k] s).targets = s.targets ∧
    (NodeSeq.onEpochEnd^[k] s).dataSize = s.dataSize ∧
    (NodeSeq.onEpochEnd^[k] s).batchSize = s.batchSize ∧
    (s.indices.Perm (List.range s.dataSize) →
      (NodeSeq.onEpochEnd^[k] s).indices.Perm (List.range s.dataSize)) := by
  induction k with
  | zero => exact ⟨rfl, rfl, rfl, rfl, fun h => h⟩
  | succ k ih =>
    rw [Function.iterate_succ_apply']
    obtain ⟨h1, h2, h3, h4, _⟩ := ih
    have hf := onEpochEnd_fields (NodeSeq.onEpochEnd^[k] s)
    refine ⟨hf.1.trans h1, hf.2.1.trans h2, hf.2.2.1.trans h3,
      hf.2.2.2.1.trans h4, fun _ => ?_⟩
    have := onEpochEnd_indices_perm (NodeSeq.onEpochEnd^[k] s)
    rwa [h3] at this

/-- Unpacking a successful `NodeSequence` construction. -/
theorem mk'_ok_state {α β : Type} {B : Nat} {ids : List α}
    {tg : Option (List β)} {sh : Bool} {seed : Nat} {s : NodeSeq α β}
    (h : NodeSequence.mk' B ids tg sh seed = .ok s) :
    s.ids = ids ∧ s.targets = tg ∧ s.dataSize = ids.length ∧
    s.batchSize = B ∧ s.indices.Perm (List.range ids.length) := by
  cases tg with
  | none =>
    simp only [NodeSequence.mk', Except.ok.injEq] at h
    subst h
    have hf := onEpochEnd_fields (α := α) (β := β)
      { ids := ids, targets := none, dataSize := ids.length, shuffle := sh,
        batchSize := B, indices := [], rng := randomState seed }
    exact ⟨hf.1, hf.2.1, hf.2.2.1, hf.2.2.2.1, onEpochEnd_indices_perm _⟩
  | some t =>
    simp only [NodeSequence.mk'] at h
    by_cases hlen : ids.length = t.length
    · rw [if_pos hlen] at h
      simp only [Except.ok.injEq] at h
      subst h
      have hf := onEpochEnd_fields (α := α) (β := β)
        { ids := ids, targets := some t, dataSize := ids.length, shuffle := sh,
          batchSize := B, indices := [], rng := randomState seed }
      exact ⟨hf.1, hf.2.1, hf.2.2.1, hf.2.2.2.1, onEpochEnd_indices_perm _⟩
    · rw [if_neg hlen] at h
      exact absurd h (by simp)

/-- When every index is in range, `lookupAll` succeeds and returns the
pointwise lookups. -/
theorem lookupAll_ok {γ : Type} (l : List γ) (idxs : List Nat)
    (h : ∀ i ∈ idxs, i < l.length) :
    lookupAll l idxs = .ok (idxs.filterMap (fun i => l.get? i)) := by
  induction idxs with
  | nil => rfl
  | cons i is ih =>
    have hi : i < l.length := h i (List.mem_cons_self i is)
    have hsome : l.get? i = some l[i] := by
      simp [List.get?_eq_getElem?, List.getElem?_eq_getElem hi]
    have hsome2 : l[i]? = some l[i] := List.getElem?_eq_getElem hi
    have hrest := ih (fun j hj => h j (List.mem_cons_of_mem _ hj))
    simp [lookupAll, hsome, hsome2, hrest, List.filterMap_cons, Except.map]

/-- Looking up every position of `range (length l)` recovers `l`. -/
theorem filterMap_get?_range {γ : Type} (l : List γ) :
    (List.range l.length).filterMap (fun i => l.get? i) = l := by
  induction l with
  | nil => rfl
  | cons a t ih =>
    rw [List.length_cons, List.range_succ_eq_map]
    simp only [List.filterMap_cons, List.get?_cons_zero, List.filterMap_map]
    have hcomp : ((fun i => (a :: t).get? i) ∘ Nat.succ) = fun i => t.get? i := by
      funext i
      simp
    rw [hcomp, ih]

/-- The contiguous `B`-sized slices at offsets `B*0, B*1, …` of a list of
length `n`, taken for all `ceil(n / B)` batch indices, concatenate back
to the whole list. -/
theorem flatMap_chunks_eq {γ : Type} (B : Nat) (hB : 0 < B) :
    ∀ (n : Nat) (l : List γ), l.length = n →
      (List.range ((n + B - 1) / B)).flatMap
        (fun i => (l.drop (B * i)).take B) = l := by
  intro n
  induction n using Nat.strong_induction_on with
  | _ n ih =>
    intro l hl
    rcases Nat.eq_zero_or_pos n with hn | hn
    · subst hn
      have h0 : (0 + B - 1) / B = 0 := Nat.div_eq_of_lt (by omega)
      rw [List.length_eq_zero] at hl
      subst hl
      simp [h0]
    · have hstep : (n + B - 1) / B = ((n - B) + B - 1) / B + 1 := by
        rcases le_or_lt n B with hnb | hnb
        · have h2 : n - B = 0 := by omega
          have hlow : (0 + B - 1) / B = 0 := Nat.div_eq_of_lt (by omega)
          have h1 : (n + B - 1) / B = 1 := by
            have hrw : n + B - 1 = (n - 1) + B := by omega
            rw [hrw, Nat.add_div_right _ hB, Nat.div_eq_of_lt (by omega)]
          rw [h1, h2, hlow]
        · have hrw : n + B - 1 = (n - B + B - 1) + B := by omega
          rw [hrw, Nat.add_div_right _ hB]
      rw [hstep, List.range_succ_eq_map, List.flatMap_cons, List.flatMap_map]
      have hf0 : (l.drop (B * 0)).take B = l.take B := by simp
      have hlen2 : (l.drop B).length = n - B := by simp [hl]
      have hmap : (List.range ((n - B + B - 1) / B)).flatMap
          (fun i => (l.drop (B * i.succ)).take B) =
          (List.range ((n - B + B - 1) / B)).flatMap
          (fun i => ((l.drop B).drop (B * i)).take B) := by
        apply List.flatMap_congr
        intro i _
        rw [List.drop_drop]
        have hBi : B + B * i = B * i.succ := by rw [Nat.mul_succ]; omega
        rw [hBi]
      rw [hf0, hmap, ih (n - B) (by omega) (l.drop B) hlen2]
      exact List.take_append_drop B l

/-- The source's `int(np.ceil(N / B)) = (N + B - 1) / B` agrees with the
mathematical ceiling of `N / B`. -/
theorem ceilDivNat_eq_ceil (N B : Nat) (hB : 0 < B) :
    (((N + B - 1) / B : Nat) : ℤ) = ⌈(N : ℚ) / (B : ℚ)⌉ := by
  have hBQ : (0 : ℚ) < (B : ℚ) := by exact_mod_cast hB
  rw [eq_comm, Int.ceil_eq_iff]
  constructor
  · rw [lt_div_iff₀ hBQ]
    have h1 : ((N + B - 1) / B : ℕ) * B ≤ N + B - 1 := Nat.div_mul_le_self _ _
    have h2 : ((N + B - 1) / B : ℕ) * B < N + B := by omega
    have h3 : ((((N + B - 1) / B : ℕ) : ℚ)) * (B : ℚ) < (N : ℚ) + (B : ℚ) := by
      exact_mod_cast h2
    rw [Int.cast_natCast]
    nlinarith [h3]
  · rw [div_le_iff₀ hBQ]
    have h1 : N ≤ B * ((N + B - 1) / B) := le_mul_ceilDivNat N B hB
    have h2 : ((N : ℚ)) ≤ (B : ℚ) * (((N + B - 1) / B : ℕ) : ℚ) := by
      exact_mod_cast h1
    rw [Int.cast_natCast]
    nlinarith [h2]

/-- On any state whose `indices` is a permutation of `range(data_size)`,
every batch's identifier lookup succeeds and the batches' identifiers,
concatenated over all `len` batch numbers, are a permutation of the
identifier list. -/
theorem headIds_ok_and_join_perm {α β : Type} (s : NodeSeq α β)
    (hB : 0 < s.batchSize) (hN : s.dataSize = s.ids.length)
    (hperm : s.indices.Perm (List.range s.dataSize)) :
    (∀ i, ∃ h, s.headIds i = .ok h) ∧
    ((List.range s.len).flatMap (fun i => okD (s.headIds i) [])).Perm s.ids := by
  have hmem : ∀ j ∈ s.indices, j < s.ids.length := by
    intro j hj
    have hr := hperm.mem_iff.mp hj
    rw [List.mem_range] at hr
    omega
  have hok : ∀ i, s.headIds i =
      .ok ((s.batchIndices i).filterMap (fun j => s.ids.get? j)) := by
    intro i
    apply lookupAll_ok
    intro j hj
    exact hmem j (List.mem_of_mem_drop (List.mem_of_mem_take hj))
  refine ⟨fun i => ⟨_, hok i⟩, ?_⟩
  have hrw : (List.range s.len).flatMap (fun i => okD (s.headIds i) []) =
      ((List.range s.len).flatMap (fun i => s.batchIndices i)).filterMap
        (fun j => s.ids.get? j) := by
    rw [List.filterMap_flatMap]
    apply List.flatMap_congr
    intro i _
    rw [hok i]
    rfl
  rw [hrw]
  have hlen : s.indices.length = s.dataSize := by
    have := hperm.length_eq
    simpa using this
  have hchunks : (List.range s.len).flatMap (fun i => s.batchIndices i) =
      s.indices := by
    unfold NodeSeq.len NodeSeq.batchIndices
    exact flatMap_chunks_eq s.batchSize hB s.dataSize s.indices hlen
  rw [hchunks]
  have hstep : (s.indices.filterMap (fun j => s.ids.get? j)).Perm
      ((List.range s.dataSize).filterMap (fun j => s.ids.get? j)) :=
    hperm.filterMap _
  refine hstep.trans ?_
  rw [hN, filterMap_get?_range]

/-- C2: for a per-entity batcher constructed over `N` identifiers with
positive batch size `B`, after any number of epoch-end calls `length()`
equals `ceil(N / B)`, every batch's identifier lookup succeeds, and the
identifiers of batches `0 .. length()-1` (contiguous slices
`[i*B, (i+1)*B)` of the current permutation) concatenate to a permutation
of the identifier list — each identifier appears exactly once per epoch. -/
theorem c2_len_and_partition {α β : Type} (B : Nat) (ids : List α)
    (tg : Option (List β)) (sh : Bool) (seed : Nat) (s : NodeSeq α β) (k : Nat)
    (hB : 0 < B) (hmk : NodeSequence.mk' B ids tg sh seed = .ok s) :
    NodeSeq.len (NodeSeq.onEpochEnd^[k] s) = (ids.length + B - 1) / B ∧
    ((NodeSeq.len (NodeSeq.onEpochEnd^[k] s) : ℤ) =
      ⌈(ids.length : ℚ) / (B : ℚ)⌉) ∧
    (∀ i, ∃ h, (NodeSeq.onEpochEnd^[k] s).headIds i = .ok h) ∧
    ((List.range (NodeSeq.len (NodeSeq.onEpochEnd^[k] s))).flatMap
      (fun i => okD ((NodeSeq.onEpochEnd^[k] s).headIds i) [])).Perm ids := by
  obtain ⟨hids, htg, hN, hBs, hip⟩ := mk'_ok_state hmk
  obtain ⟨kids, ktg, kN, kB, kperm⟩ := iterate_onEpochEnd_state k s
  have hip' : s.indices.Perm (List.range s.dataSize) := by
    rw [hN]
    exact hip
  have hNk : (NodeSeq.onEpochEnd^[k] s).dataSize = ids.length := by rw [kN, hN]
  have hBk : (NodeSeq.onEpochEnd^[k] s).batchSize = B := by rw [kB, hBs]
  have hidsk : (NodeSeq.onEpochEnd^[k] s).ids = ids := by rw [kids, hids]
  have hpermk : (NodeSeq.onEpochEnd^[k] s).indices.Perm
      (List.range (NodeSeq.onEpochEnd^[k] s).dataSize) := by
    rw [kN]
    exact kperm hip'
  have hcore := headIds_ok_and_join_perm (NodeSeq.onEpochEnd^[k] s)
    (by rw [hBk]; exact hB) (by rw [hNk, hidsk]) hpermk
  have hlen : NodeSeq.len (NodeSeq.onEpochEnd^[k] s) = (ids.length + B - 1) / B := by
    unfold NodeSeq.len
    rw [hNk, hBk]
  refine ⟨hlen, ?_, hcore.1, ?_⟩
  · rw [hlen]
    exact ceilDivNat_eq_ceil ids.length B hB
  · have hj := hcore.2
    rwa [hidsk] at hj

/-- C2 witness: the partition theorem applied to a concrete seeded
construction over ids `[10, 20, 30]` with batch size 2, after one
epoch-end call. -/
theorem c2_witness :
    (0 < 2 ∧ NodeSequence.mk' 2 [10, 20, 30] (none : Option (List (List Int))) true 7 =
      .ok wNodeSeq) ∧
    (NodeSeq.len (NodeSeq.onEpochEnd^[1] wNodeSeq) =
      (([10, 20, 30] : List Nat).length + 2 - 1) / 2 ∧
    ((NodeSeq.len (NodeSeq.onEpochEnd^[1] wNodeSeq) : ℤ) =
      ⌈((([10, 20, 30] : List Nat).length : ℚ)) / ((2 : Nat) : ℚ)⌉) ∧
    (∀ i, ∃ h, (NodeSeq.onEpochEnd^[1] wNodeSeq).headIds i = .ok h) ∧
    ((List.range (NodeSeq.len (NodeSeq.onEpochEnd^[1] wNodeSeq))).flatMap
      (fun i => okD ((NodeSeq.onEpochEnd^[1] wNodeSeq).headIds i) [])).Perm
      [10, 20, 30]) :=
  ⟨⟨Nat.succ_pos 1, by decide⟩,
    c2_len_and_partition 2 [10, 20, 30] none true 7 wNodeSeq 1 (by decide)
      (by decide)⟩

/-! ### Dense reconstruction of the sparse packer output (C8) -/

/-- `getD` after `set`: the write is visible exactly at an in-range hit. -/
theorem getD_set_general {γ : Type} (l : List γ) (i r : Nat) (a d : γ) :
    (l.set i a).getD r d = if i = r ∧ i < l.length then a else l.getD r d := by
  by_cases hir : i = r
  · subst hir
    by_cases hlt : i < l.length
    · simp [List.getD_eq_getElem?_getD, List.getElem?_set_self hlt, hlt]
    · rw [List.set_eq_of_length_le (by omega)]
      simp [hlt]
  · simp [List.getD_eq_getElem?_getD, List.getElem?_set_ne hir, hir]

/-- `setEntry` preserves the matrix shape. -/
theorem setEntry_shape (mat : List (List Int)) (i j : Nat) (v : Int) :
    (setEntry mat i j v).length = mat.length ∧
    ∀ r, ((setEntry mat i j v).getD r []).length = (mat.getD r []).length := by
  refine ⟨by simp [setEntry], fun r => ?_⟩
  rw [setEntry, getD_set_general]
  split
  · rename_i h
    rw [List.length_set, h.1]
  · rfl

/-- Reading back the position just written (in range). -/
theorem getEntry_setEntry_self (mat : List (List Int)) (i j : Nat) (v : Int)
    (hi : i < mat.length) (hj : j < (mat.getD i []).length) :
    getEntry (setEntry mat i j v) i j = v := by
  rw [getEntry, setEntry, getD_set_general, if_pos ⟨rfl, hi⟩, getD_set_general,
    if_pos ⟨rfl, by simpa using hj⟩]

/-- A write at one position leaves every other position unchanged. -/
theorem getEntry_setEntry_ne (mat : List (List Int)) (i j r c : Nat) (v : Int)
    (h : ¬(i = r ∧ j = c)) :
    getEntry (setEntry mat i j v) r c = getEntry mat r c := by
  rw [getEntry, setEntry, getD_set_general, getEntry]
  by_cases hir : i = r ∧ i < mat.length
  · rw [if_pos hir]
    have hjc : ¬(j = c) := fun hjc => h ⟨hir.1, hjc⟩
    rw [getD_set_general, if_neg (by tauto), hir.1]
  · rw [if_neg hir]

/-- Folding writes preserves the matrix shape. -/
theorem foldl_setEntry_shape (ps : List ((Nat × Nat) × Int)) :
    ∀ acc : List (List Int),
      (ps.foldl (fun a p => setEntry a p.1.1 p.1.2 p.2) acc).length = acc.length ∧
      ∀ r, ((ps.foldl (fun a p => setEntry a p.1.1 p.1.2 p.2) acc).getD r []).length =
        (acc.getD r []).length := by
  induction ps with
  | nil => intro acc; exact ⟨rfl, fun _ => rfl⟩
  | cons p ps ih =>
    intro acc
    rw [List.foldl_cons]
    have h1 := ih (setEntry acc p.1.1 p.1.2 p.2)
    have h2 := setEntry_shape acc p.1.1 p.1.2 p.2
    exact ⟨h1.1.trans h2.1, fun r => (h1.2 r).trans (h2.2 r)⟩

/-- Reading an in-range position after folding a write per coordinate
pair: the last write at that position wins, otherwise the accumulator
value shows through. -/
theorem getEntry_foldl_setEntry (r c : Nat) (ps : List ((Nat × Nat) × Int)) :
    ∀ acc : List (List Int), r < acc.length → c < (acc.getD r []).length →
      getEntry (ps.foldl (fun a p => setEntry a p.1.1 p.1.2 p.2) acc) r c =
        (((ps.filter (fun p => p.1.1 == r && p.1.2 == c)).getLast?).map
          (fun p => p.2)).getD (getEntry acc r c) := by
  induction ps with
  | nil => intro acc _ _; simp
  | cons p ps ih =>
    intro acc hr hc
    rw [List.foldl_cons]
    have hsh := setEntry_shape acc p.1.1 p.1.2 p.2
    have hr' : r < (setEntry acc p.1.1 p.1.2 p.2).length := by
      rw [hsh.1]; exact hr
    have hc' : c < ((setEntry acc p.1.1 p.1.2 p.2).getD r []).length := by
      rw [hsh.2 r]; exact hc
    rw [ih _ hr' hc']
    by_cases hp : p.1.1 = r ∧ p.1.2 = c
    · rw [List.filter_cons_of_pos (by simp [hp.1, hp.2])]
      cases hfp : ps.filter (fun q => q.1.1 == r && q.1.2 == c) with
      | nil =>
        obtain ⟨h1, h2⟩ := hp
        subst h1
        subst h2
        simpa using getEntry_setEntry_self acc p.1.1 p.1.2 p.2 hr hc
      | cons q qs =>
        rw [List.getLast?_cons_cons]
        cases hgl : (q :: qs).getLast? with
        | none => simp at hgl
        | some v => simp [hgl]
    · have hpb : (p.1.1 == r && p.1.2 == c) = false := by
        by_cases h1 : p.1.1 = r <;> by_cases h2 : p.1.2 = c <;>
          simp [h1, h2] <;> tauto
      rw [List.filter_cons_of_neg (by simp [hpb]),
        getEntry_setEntry_ne acc p.1.1 p.1.2 r c p.2 hp]

/-- With pairwise-distinct coordinates, at most one entry matches a given
position. -/
theorem nodup_filter_len_le_one (l : List (Nat × Nat × Int)) (r c : Nat)
    (h : (l.map (fun e => (e.1, e.2.1))).Nodup) :
    (l.filter (fun e => e.1 == r && e.2.1 == c)).length ≤ 1 := by
  induction l with
  | nil => simp
  | cons a t ih =>
    rw [List.map_cons, List.nodup_cons] at h
    by_cases ha : a.1 = r ∧ a.2.1 = c
    · rw [List.filter_cons_of_pos (by simp [ha.1, ha.2])]
      have hnil : t.filter (fun e => e.1 == r && e.2.1 == c) = [] := by
        rw [List.filter_eq_nil_iff]
        intro x hx hpx
        apply h.1
        have hx1 : x.1 = r ∧ x.2.1 = c := by simpa using hpx
        rw [List.mem_map]
        exact ⟨x, hx, by rw [hx1.1, hx1.2, ha.1, ha.2]⟩
      rw [hnil]
      simp
    · have hpb : (a.1 == r && a.2.1 == c) = false := by
        by_cases h1 : a.1 = r <;> by_cases h2 : a.2.1 = c <;>
          simp [h1, h2] <;> tauto
      rw [List.filter_cons_of_neg (by simp [hpb])]
      exact ih h.2

/-- Every position of the dense zero matrix reads 0. -/
theorem getEntry_zerosMat (rr cc i j : Nat) : getEntry (zerosMat rr cc) i j = 0 := by
  rw [getEntry, zerosMat]
  rcases Nat.lt_or_ge i rr with hi | hi
  · rw [List.getD_eq_getElem?_getD (List.replicate rr (List.replicate cc 0)) i [],
      List.getElem?_replicate, if_pos hi, Option.getD_some,
      List.getD_eq_getElem?_getD, List.getElem?_replicate]
    rcases Nat.lt_or_ge j cc with hj | hj
    · rw [if_pos hj]
      rfl
    · rw [if_neg (by omega)]
      rfl
  · rw [List.getD_eq_getElem?_getD (List.replicate rr (List.replicate cc 0)) i [],
      List.getElem?_replicate, if_neg (by omega)]
    rfl

/-- An in-range row of the dense zero matrix. -/
theorem zerosMat_row (rr cc r : Nat) (hr : r < rr) :
    (zerosMat rr cc).getD r [] = List.replicate cc 0 := by
  rw [zerosMat, List.getD_eq_getElem?_getD, List.getElem?_replicate]
  simp [hr]

/-- `getLast?` commutes with `map`. -/
theorem getLast?_map_comm {γ δ : Type} (f : γ → δ) (l : List γ) :
    (l.map f).getLast? = l.getLast?.map f := by
  induction l with
  | nil => rfl
  | cons a t ih =>
    cases t with
    | nil => rfl
    | cons b t2 =>
      rw [List.map_cons, List.map_cons, List.getLast?_cons_cons, ← List.map_cons,
        ih, List.getLast?_cons_cons]

/-- An in-range row of `toarray`. -/
theorem toarray_row (m : Coo) (r : Nat) (hr : r < m.nrows) :
    m.toarray.getD r [] = (List.range m.ncols).map (fun j => m.entryAt r j) := by
  rw [Coo.toarray, List.getD_eq_getElem?_getD, List.getElem?_map]
  rw [List.getElem?_range hr]
  rfl

/-- In-range positions of `toarray` carry `entryAt`. -/
theorem toarray_entry (m : Coo) (r c : Nat) (hr : r < m.nrows)
    (hc : c < m.ncols) :
    getEntry m.toarray r c = m.entryAt r c := by
  rw [getEntry, toarray_row m r hr, List.getD_eq_getElem?_getD, List.getElem?_map,
    List.getElem?_range hc]
  rfl

/-- Rows agreeing in length and entrywise are equal. -/
theorem rows_eq_of_entries {row1 row2 : List Int}
    (hlen : row1.length = row2.length)
    (hent : ∀ j, j < row1.length → row1.getD j 0 = row2.getD j 0) :
    row1 = row2 := by
  apply List.ext_getElem?
  intro j
  by_cases hj : j < row1.length
  · have hj2 : j < row2.length := by omega
    rw [List.getElem?_eq_getElem hj, List.getElem?_eq_getElem hj2]
    have hv := hent j hj
    rw [List.getD_eq_getElem row1 0 hj, List.getD_eq_getElem row2 0 hj2] at hv
    rw [hv]
  · rw [List.getElem?_eq_none (by omega), List.getElem?_eq_none (by omega)]

/-- Matrices agreeing in shape and entrywise are equal. -/
theorem mats_eq_of_entries {m1 m2 : List (List Int)}
    (hlen : m1.length = m2.length)
    (hrow : ∀ r, r < m1.length → (m1.getD r []).length = (m2.getD r []).length)
    (hent : ∀ r c, r < m1.length → c < (m1.getD r []).length →
      getEntry m1 r c = getEntry m2 r c) :
    m1 = m2 := by
  apply List.ext_getElem?
  intro r
  by_cases hr : r < m1.length
  · have hr2 : r < m2.length := by omega
    have hrows : m1.getD r [] = m2.getD r [] :=
      rows_eq_of_entries (hrow r hr) (fun j hj => hent r j hr hj)
    rw [List.getElem?_eq_getElem hr, List.getElem?_eq_getElem hr2,
      ← List.getD_eq_getElem m1 [] hr, ← List.getD_eq_getElem m2 [] hr2, hrows]
  · rw [List.getElem?_eq_none (by omega), List.getElem?_eq_none (by omega)]

/-- Core of C8: with pairwise-distinct coordinates, scattering the COO
values into a zero matrix rebuilds exactly the densified matrix. -/
theorem reconstruct_eq_toarray (m : Coo)
    (h : (m.entries.map (fun e => (e.1, e.2.1))).Nodup) :
    reconstructDense m.nrows m.ncols (m.entries.map (fun e => (e.1, e.2.1)))
      (m.entries.map (fun e => e.2.2)) = m.toarray := by
  have hzip : (m.entries.map (fun e => (e.1, e.2.1))).zip
      (m.entries.map (fun e => e.2.2)) =
      m.entries.map (fun e => ((e.1, e.2.1), e.2.2)) := by
    rw [List.zip_map']
  have hshape := foldl_setEntry_shape
    (m.entries.map (fun e => ((e.1, e.2.1), e.2.2)))
    (zerosMat m.nrows m.ncols)
  have hreclen : (reconstructDense m.nrows m.ncols
      (m.entries.map (fun e => (e.1, e.2.1)))
      (m.entries.map (fun e => e.2.2))).length = m.nrows := by
    rw [reconstructDense, hzip]
    rw [hshape.1]
    simp [zerosMat]
  have hrecrow : ∀ r, r < m.nrows →
      ((reconstructDense m.nrows m.ncols
        (m.entries.map (fun e => (e.1, e.2.1)))
        (m.entries.map (fun e => e.2.2))).getD r []).length = m.ncols := by
    intro r hr
    rw [reconstructDense, hzip, hshape.2 r, zerosMat_row _ _ _ hr]
    simp
  have hent : ∀ r c, r < m.nrows → c < m.ncols →
      getEntry (reconstructDense m.nrows m.ncols
        (m.entries.map (fun e => (e.1, e.2.1)))
        (m.entries.map (fun e => e.2.2))) r c = m.entryAt r c := by
    intro r c hr hc
    rw [reconstructDense, hzip]
    rw [getEntry_foldl_setEntry r c _ (zerosMat m.nrows m.ncols)
      (by simp [zerosMat, hr]) (by rw [zerosMat_row _ _ _ hr]; simpa using hc)]
    rw [List.filter_map]
    have hpred : ((fun p : (Nat × Nat) × Int => p.1.1 == r && p.1.2 == c) ∘
        (fun e : Nat × Nat × Int => ((e.1, e.2.1), e.2.2))) =
        (fun e : Nat × Nat × Int => e.1 == r && e.2.1 == c) := by
      funext e
      rfl
    rw [hpred, getLast?_map_comm, Option.map_map, getEntry_zerosMat]
    have hfl := nodup_filter_len_le_one m.entries r c h
    rcases hfle : m.entries.filter (fun e => e.1 == r && e.2.1 == c) with
      _ | ⟨e1, _ | ⟨e2, t⟩⟩
    · rw [Coo.entryAt, hfle]
      rfl
    · rw [Coo.entryAt, hfle]
      simp
    · rw [hfle] at hfl
      simp at hfl
  apply mats_eq_of_entries
  · rw [hreclen]
    simp [Coo.toarray]
  · intro r hr
    rw [hreclen] at hr
    rw [hrecrow r hr, toarray_row m r hr]
    simp
  · intro r c hr hc
    rw [hreclen] at hr
    rw [hrecrow r hr] at hc
    rw [hent r c hr hc, toarray_entry m r c hr hc]

/-- C8 (amended): for every adjacency matrix accepted by both full-batch
packers whose coordinate entries have pairwise-distinct `(row, col)`
positions, the dense matrix reconstructed from the sparse packer's
coordinate/value output — placing each value at its `(row, col)`
position — equals the dense packer's densified adjacency output. -/
theorem c8_sparse_dense_equiv (feats : List (List Int)) (m : Coo)
    (sd : FullBatchSeq) (ss : SparseFullBatchSeq)
    (hnodup : (m.entries.map (fun e => (e.1, e.2.1))).Nodup)
    (hd : FullBatchSequence.mk' feats (.sparse m) none none = .ok sd)
    (hs : SparseFullBatchSequence.mk' feats (.sparse m) none none = .ok ss) :
    reconstructDense m.nrows m.ncols ss.AIndices ss.AValues = sd.ADense := by
  simp only [FullBatchSequence.mk', Except.ok.injEq] at hd
  simp only [SparseFullBatchSequence.mk', Except.ok.injEq] at hs
  rw [← hd, ← hs]
  exact reconstruct_eq_toarray m hnodup

/-- C8 witness: the equivalence at a concrete 2 × 2 adjacency with
distinct coordinates. -/
theorem c8_witness :
    ((((⟨2, 2, [(0, 1, 5), (1, 0, 7)]⟩ : Coo)).entries.map
      (fun e => (e.1, e.2.1))).Nodup ∧
     FullBatchSequence.mk' [[1], [2]]
       (.sparse ⟨2, 2, [(0, 1, 5), (1, 0, 7)]⟩) none none = .ok wFullBatch ∧
     SparseFullBatchSequence.mk' [[1], [2]]
       (.sparse ⟨2, 2, [(0, 1, 5), (1, 0, 7)]⟩) none none =
         .ok wSparseFullBatch) ∧
    reconstructDense 2 2 wSparseFullBatch.AIndices wSparseFullBatch.AValues =
      wFullBatch.ADense :=
  ⟨⟨by decide, by decide, by decide⟩,
    c8_sparse_dense_equiv [[1], [2]] ⟨2, 2, [(0, 1, 5), (1, 0, 7)]⟩
      wFullBatch wSparseFullBatch (by decide) (by decide) (by decide)⟩

/-- C8 counterexample: a COO adjacency with a duplicated coordinate is
accepted by both packers, but the dense packer sums the duplicates
(`3` at position `(0,0)`) while placing the values one by one leaves only
the last (`2`) — so the claim fails for matrices with duplicate
coordinate entries. -/
theorem c8_counterexample :
    FullBatchSequence.mk' [[1]] (.sparse ⟨1, 1, [(0, 0, 1), (0, 0, 2)]⟩)
      none none =
      .ok ⟨[[1]], none, [[3]], none⟩ ∧
    SparseFullBatchSequence.mk' [[1]] (.sparse ⟨1, 1, [(0, 0, 1), (0, 0, 2)]⟩)
      none none =
      .ok ⟨[[1]], none, [(0, 0), (0, 0)], [1, 2], none⟩ ∧
    reconstructDense 1 1 [(0, 0), (0, 0)] [1, 2] = [[2]] ∧
    ([[2]] : List (List Int)) ≠ [[3]] := by
  decide

/-- `getD` through `map` at an in-range index. -/
theorem getD_map_lt {γ δ : Type} (f : γ → δ) (l : List γ) (j : Nat) (d : δ) (d0 : γ)
    (h : j < l.length) : (l.map f).getD j d = f (l.getD j d0) := by
  rw [List.getD_eq_getElem _ _ (by simpa using h), List.getD_eq_getElem _ _ h,
    List.getElem_map]

/-- Padded features have exactly `max_nodes` rows. -/
theorem padFeatures_length (g : Graph) (mN : Nat)
    (hfeat : g.nodeFeatures.length = g.numberOfNodes) (h : g.numberOfNodes ≤ mN) :
    (padFeatures g mN).length = mN := by
  rw [padFeatures, List.length_append, List.length_replicate, hfeat]
  omega

/-- Every padding row of the padded feature matrix is a zero row. -/
theorem padFeatures_pad_row (g : Graph) (mN r : Nat)
    (hfeat : g.nodeFeatures.length = g.numberOfNodes)
    (h1 : g.numberOfNodes ≤ r) (h2 : r < mN) :
    (padFeatures g mN).getD r [] =
      List.replicate (g.nodeFeatures.headD []).length 0 := by
  rw [padFeatures, List.getD_append_right _ _ _ _ (by omega), hfeat,
    List.getD_eq_getElem?_getD, List.getElem?_replicate, if_pos (by omega)]
  rfl

/-- A sparse matrix whose entries all lie inside an `nn × nn` corner
reads 0 outside that corner. -/
theorem entryAt_zero_of_bound (m : Coo) (nn r c : Nat)
    (hbound : ∀ e ∈ m.entries, e.1 < nn ∧ e.2.1 < nn)
    (h : nn ≤ r ∨ nn ≤ c) :
    m.entryAt r c = 0 := by
  rw [Coo.entryAt]
  have hnil : m.entries.filter (fun e => e.1 == r && e.2.1 == c) = [] := by
    rw [List.filter_eq_nil_iff]
    intro e he hpe
    have h1 : e.1 = r ∧ e.2.1 = c := by simpa using hpe
    have h2 := hbound e he
    rcases h with h | h <;> omega
  rw [hnil]
  rfl

/-- After zero-padding by `resize`, densified positions outside the
original corner are 0. -/
theorem resize_toarray_entry_zero (a : Coo) (nn mm r c : Nat)
    (hbound : ∀ e ∈ a.entries, e.1 < nn ∧ e.2.1 < nn)
    (hr : r < mm) (hc : c < mm) (h : nn ≤ r ∨ nn ≤ c) :
    getEntry ((a.resize mm mm).toarray) r c = 0 := by
  rw [toarray_entry _ _ _ hr hc]
  apply entryAt_zero_of_bound _ nn _ _ _ h
  intro e he
  rw [Coo.resize] at he
  simp only [List.mem_filter] at he
  exact hbound e he.1

/-- Batch shape of the graph batcher on any state with three graphs whose
maximum node count is 5, batch size 3: `batch(0)` pads everything to 5
and zero-fills beyond each graph's own node count. -/
theorem c9_state (s : GraphSeq)
    (hlen : s.graphs.length = 3) (hadjlen : s.normalizedAdjs.length = 3)
    (hbs : s.batchSize = 3)
    (hmax : (s.graphs.map Graph.numberOfNodes).foldl Nat.max 0 = 5)
    (hfeat : ∀ g ∈ s.graphs, g.nodeFeatures.length = g.numberOfNodes)
    (hadjbound : ∀ j, j < 3 → (s.graphs.getD j default).numberOfNodes = 2 →
      ∀ e ∈ (s.normalizedAdjs.getD j ⟨0, 0, []⟩).entries, e.1 < 2 ∧ e.2.1 < 2) :
    GraphSeq.len s = 1 ∧
    ∀ batch tgts s2, GraphSeq.getitemSt s 0 = .ok ((batch, tgts), s2) →
      batch.masks.length = 3 ∧
      (∀ mrow ∈ batch.masks, mrow.length = 5) ∧
      (∀ f ∈ batch.features, f.length = 5) ∧
      (∀ a ∈ batch.adjs, a.length = 5) ∧
      (∀ j, j < 3 → (s.graphs.getD j default).numberOfNodes = 2 →
        batch.masks.getD j [] = [true, true, false, false, false] ∧
        (∀ r, 2 ≤ r → r < 5 →
          (batch.features.getD j []).getD r [] =
            List.replicate (((s.graphs.getD j default).nodeFeatures.headD []).length) 0) ∧
        (∀ r c, r < 5 → c < 5 → 2 ≤ r ∨ 2 ≤ c →
          getEntry (batch.adjs.getD j []) r c = 0)) := by
  constructor
  · rw [GraphSeq.len, hlen, hbs]
  · intro batch tgts s2 hget
    obtain ⟨g0, g1, g2, hG⟩ := List.length_eq_three.mp hlen
    obtain ⟨a0, a1, a2, hA⟩ := List.length_eq_three.mp hadjlen
    have hslice : (s.graphs.drop (0 * s.batchSize)).take s.batchSize = [g0, g1, g2] := by
      rw [Nat.zero_mul, List.drop_zero, hbs, hG]
      rfl
    have haslice : (s.normalizedAdjs.drop (0 * s.batchSize)).take s.batchSize =
        [a0, a1, a2] := by
      rw [Nat.zero_mul, List.drop_zero, hbs, hA]
      rfl
    rw [GraphSeq.getitemSt] at hget
    simp only [hslice, haslice] at hget
    rw [hG] at hmax
    simp only [List.map_cons, List.map_nil, List.foldl_cons, List.foldl_nil] at hmax hget
    rw [hmax] at hget
    simp only [Except.ok.injEq, Prod.mk.injEq] at hget
    obtain ⟨⟨hbt, htg⟩, hs2⟩ := hget
    subst hbt
    have hle0 : g0.numberOfNodes ≤ 5 := by
      have h0 : g0.numberOfNodes ≤
          ((Nat.max 0 g0.numberOfNodes).max g1.numberOfNodes).max g2.numberOfNodes :=
        le_trans (le_trans (Nat.le_max_right 0 _) (Nat.le_max_left _ _))
          (Nat.le_max_left _ _)
      omega
    have hle1 : g1.numberOfNodes ≤ 5 := by
      have h0 : g1.numberOfNodes ≤
          ((Nat.max 0 g0.numberOfNodes).max g1.numberOfNodes).max g2.numberOfNodes :=
        le_trans (Nat.le_max_right _ _) (Nat.le_max_left _ _)
      omega
    have hle2 : g2.numberOfNodes ≤ 5 := by
      have h0 : g2.numberOfNodes ≤
          ((Nat.max 0 g0.numberOfNodes).max g1.numberOfNodes).max g2.numberOfNodes :=
        Nat.le_max_right _ _
      omega
    have hf0 : g0.nodeFeatures.length = g0.numberOfNodes := hfeat g0 (by rw [hG]; simp)
    have hf1 : g1.nodeFeatures.length = g1.numberOfNodes := hfeat g1 (by rw [hG]; simp)
    have hf2 : g2.nodeFeatures.length = g2.numberOfNodes := hfeat g2 (by rw [hG]; simp)
    refine ⟨rfl, ?_, ?_, ?_, ?_⟩
    · intro mrow hm
      simp only [List.mem_cons, List.not_mem_nil, or_false] at hm
      rcases hm with h | h | h <;> subst h <;> simp
    · intro f hf
      simp only [List.mem_cons, List.not_mem_nil, or_false] at hf
      rcases hf with h | h | h <;> subst h
      · exact padFeatures_length g0 5 hf0 hle0
      · exact padFeatures_length g1 5 hf1 hle1
      · exact padFeatures_length g2 5 hf2 hle2
    · intro a ha
      simp only [List.mem_cons, List.not_mem_nil, or_false] at ha
      rcases ha with h | h | h <;> subst h <;> simp [Coo.toarray, Coo.resize]
    · intro j hj hcount
      interval_cases j
      · rw [hG] at hcount
        simp only [List.getD_cons_zero] at hcount
        rw [hG]
        refine ⟨?_, ?_, ?_⟩
        · simp only [List.getD_cons_zero]
          rw [hcount]
          decide
        · intro r hr2 hr5
          simp only [List.getD_cons_zero]
          rw [padFeatures_pad_row g0 5 r hf0 (by omega) hr5]
        · intro r c hr hc hor
          simp only [List.getD_cons_zero]
          refine resize_toarray_entry_zero a0 2 5 r c ?_ hr hc hor
          have hb := hadjbound 0 (by omega) (by rw [hG]; simpa using hcount)
          rw [hA] at hb
          simpa using hb
      · rw [hG] at hcount
        simp only [List.getD_cons_succ, List.getD_cons_zero] at hcount
        rw [hG]
        refine ⟨?_, ?_, ?_⟩
        · simp only [List.getD_cons_succ, List.getD_cons_zero]
          rw [hcount]
          decide
        · intro r hr2 hr5
          simp only [List.getD_cons_succ, List.getD_cons_zero]
          rw [padFeatures_pad_row g1 5 r hf1 (by omega) hr5]
        · intro r c hr hc hor
          simp only [List.getD_cons_succ, List.getD_cons_zero]
          refine resize_toarray_entry_zero a1 2 5 r c ?_ hr hc hor
          have hb := hadjbound 1 (by omega) (by rw [hG]; simpa using hcount)
          rw [hA] at hb
          simpa using hb
      · rw [hG] at hcount
        simp only [List.getD_cons_succ, List.getD_cons_zero] at hcount
        rw [hG]
        refine ⟨?_, ?_, ?_⟩
        · simp only [List.getD_cons_succ, List.getD_cons_zero]
          rw [hcount]
          decide
        · intro r hr2 hr5
          simp only [List.getD_cons_succ, List.getD_cons_zero]
          rw [padFeatures_pad_row g2 5 r hf2 (by omega) hr5]
        · intro r c hr hc hor
          simp only [List.getD_cons_succ, List.getD_cons_zero]
          refine resize_toarray_entry_zero a2 2 5 r c ?_ hr hc hor
          have hb := hadjbound 2 (by omega) (by rw [hG]; simpa using hcount)
          rw [hA] at hb
          simpa using hb

/-- The six permutations of `range 3`, enumerated. -/
theorem perm_range3_cases (perm : List Nat) (h : perm.Perm (List.range 3)) :
    perm = [0, 1, 2] ∨ perm = [0, 2, 1] ∨ perm = [1, 0, 2] ∨
    perm = [1, 2, 0] ∨ perm = [2, 0, 1] ∨ perm = [2, 1, 0] := by
  have hlen : perm.length = 3 := by simpa using h.length_eq
  obtain ⟨a, b, c, rfl⟩ := List.length_eq_three.mp hlen
  have ha : a < 3 := by
    have hm := h.mem_iff.mp (show a ∈ [a, b, c] by simp)
    simpa using hm
  have hb : b < 3 := by
    have hm := h.mem_iff.mp (show b ∈ [a, b, c] by simp)
    simpa using hm
  have hc : c < 3 := by
    have hm := h.mem_iff.mp (show c ∈ [a, b, c] by simp)
    simpa using hm
  have hnd : ([a, b, c] : List Nat).Nodup := h.symm.nodup (List.nodup_range 3)
  simp only [List.nodup_cons, List.mem_cons, List.not_mem_nil, or_false,
    List.nodup_nil, and_true, not_or] at hnd
  obtain ⟨⟨hab, hac⟩, hbc⟩ := hnd
  interval_cases a <;> interval_cases b <;> interval_cases c <;> simp_all

/-- C9: for a `GraphSequence` over graphs with node counts `[3, 5, 2]`
and batch size 3 (any shuffle outcome, any targets, any normalizer),
`batch(0)` uses `max_nodes = 5` — all masks, padded feature matrices and
adjacency matrices have node dimension 5 — the mask row of the 2-node
graph is `[True, True, False, False, False]`, its feature rows at
positions ≥ 2 are zero rows, and its adjacency entries are zero at every
position with row ≥ 2 or column ≥ 2. -/
theorem c9_graph_batcher (gA5 gB5 gC5 : Graph) (normalizeAdj : Coo → Coo)
    (targets : Option (List (List Int))) (perm : List Nat) (s : GraphSeq)
    (hA : gA5.numberOfNodes = 3) (hB : gB5.numberOfNodes = 5)
    (hC : gC5.numberOfNodes = 2)
    (hfA : gA5.nodeFeatures.length = 3) (hfB : gB5.nodeFeatures.length = 5)
    (hfC : gC5.nodeFeatures.length = 2)
    (hCadj : ∀ e ∈ (normalizeAdj gC5.adjacencyMatrix).entries,
      e.1 < 2 ∧ e.2.1 < 2)
    (hperm : perm.Perm (List.range 3))
    (hmk : GraphSequence.mk' normalizeAdj [gA5, gB5, gC5] targets true 3 perm =
      .ok s) :
    GraphSeq.len s = 1 ∧
    ∀ batch tgts s2, GraphSeq.getitemSt s 0 = .ok ((batch, tgts), s2) →
      batch.masks.length = 3 ∧
      (∀ mrow ∈ batch.masks, mrow.length = 5) ∧
      (∀ f ∈ batch.features, f.length = 5) ∧
      (∀ a ∈ batch.adjs, a.length = 5) ∧
      (∀ j, j < 3 → (s.graphs.getD j default).numberOfNodes = 2 →
        batch.masks.getD j [] = [true, true, false, false, false] ∧
        (∀ r, 2 ≤ r → r < 5 →
          (batch.features.getD j []).getD r [] =
            List.replicate
              (((s.graphs.getD j default).nodeFeatures.headD []).length) 0) ∧
        (∀ r c, r < 5 → c < 5 → 2 ≤ r ∨ 2 ≤ c →
          getEntry (batch.adjs.getD j []) r c = 0)) := by
  have hs : s = GraphSeq.onEpochEnd
      { graphs := [gA5, gB5, gC5],
        normalizedAdjs := [normalizeAdj gA5.adjacencyMatrix,
          normalizeAdj gB5.adjacencyMatrix, normalizeAdj gC5.adjacencyMatrix],
        targets := targets, batchSize := 3 } perm := by
    cases targets with
    | none =>
      simp only [GraphSequence.mk', if_true, List.map_cons, List.map_nil,
        Except.ok.injEq] at hmk
      exact hmk.symm
    | some t =>
      simp only [GraphSequence.mk'] at hmk
      by_cases hc : ([gA5, gB5, gC5] : List Graph).length = t.length
      · rw [if_pos hc] at hmk
        simp only [if_true, List.map_cons, List.map_nil, Except.ok.injEq] at hmk
        exact hmk.symm
      · rw [if_neg hc] at hmk
        exact absurd hmk (by simp)
  subst hs
  rcases perm_range3_cases perm hperm with hp | hp | hp | hp | hp | hp <;>
    subst hp <;>
    (refine c9_state _ (by simp [GraphSeq.onEpochEnd])
      (by simp [GraphSeq.onEpochEnd]) rfl ?_ ?_ ?_
     · simp only [GraphSeq.onEpochEnd, List.map_cons, List.map_nil,
         List.getD_cons_zero, List.getD_cons_succ, List.foldl_cons,
         List.foldl_nil, hA, hB, hC]
       decide
     · intro g hg
       simp only [GraphSeq.onEpochEnd, List.map_cons, List.map_nil,
         List.getD_cons_zero, List.getD_cons_succ, List.mem_cons,
         List.not_mem_nil, or_false] at hg
       rcases hg with h | h | h <;> subst h <;>
         first
           | rw [hfA, hA]
           | rw [hfB, hB]
           | rw [hfC, hC]
     · intro j hj hcount
       simp only [GraphSeq.onEpochEnd, List.map_cons, List.map_nil,
         List.getD_cons_zero, List.getD_cons_succ] at hcount ⊢
       interval_cases j <;>
         simp only [List.getD_cons_zero, List.getD_cons_succ] at hcount ⊢ <;>
         first
           | (exfalso; rw [hA] at hcount; omega)
           | (exfalso; rw [hB] at hcount; omega)
           | exact hCadj)

/-- C9 witness: the graph-batch theorem applied to the concrete graphs
`exGraph3`, `exGraph5`, `exGraph2` with the identity normalizer and the
identity shuffle outcome. -/
theorem c9_witness :
    ((exGraph3.numberOfNodes = 3 ∧ exGraph5.numberOfNodes = 5 ∧
      exGraph2.numberOfNodes = 2) ∧
     (∀ e ∈ (((fun a => a) : Coo → Coo) exGraph2.adjacencyMatrix).entries,
       e.1 < 2 ∧ e.2.1 < 2) ∧
     ([0, 1, 2] : List Nat).Perm (List.range 3) ∧
     GraphSequence.mk' (fun a => a) [exGraph3, exGraph5, exGraph2] none true 3
       [0, 1, 2] = .ok wGraphSeq3) ∧
    (GraphSeq.len wGraphSeq3 = 1 ∧
     ∀ batch tgts s2, GraphSeq.getitemSt wGraphSeq3 0 = .ok ((batch, tgts), s2) →
      batch.masks.length = 3 ∧
      (∀ mrow ∈ batch.masks, mrow.length = 5) ∧
      (∀ f ∈ batch.features, f.length = 5) ∧
      (∀ a ∈ batch.adjs, a.length = 5) ∧
      (∀ j, j < 3 → (wGraphSeq3.graphs.getD j default).numberOfNodes = 2 →
        batch.masks.getD j [] = [true, true, false, false, false] ∧
        (∀ r, 2 ≤ r → r < 5 →
          (batch.features.getD j []).getD r [] =
            List.replicate
              (((wGraphSeq3.graphs.getD j default).nodeFeatures.headD []).length) 0) ∧
        (∀ r c, r < 5 → c < 5 → 2 ≤ r ∨ 2 ≤ c →
          getEntry (batch.adjs.getD j []) r c = 0))) :=
  ⟨⟨⟨by decide, by decide, by decide⟩, by decide, by decide, by decide⟩,
   c9_graph_batcher exGraph3 exGraph5 exGraph2 (fun a => a) none [0, 1, 2]
     wGraphSeq3 (by decide) (by decide) (by decide) (by decide) (by decide)
     (by decide) (by decide) (by decide) (by decide)⟩

end StellarSeq
